import Mathlib

/-!
Shallow embedding of the landscape-dynamics engine of `hexi-explorable`
(`src/js/fog.js`: `HexCell`, `HexGrid`, `FogSystem`; the unnamed source file
defining `Ball`), together with theorems settling the frozen claims about it.

Modelling conventions:
* JavaScript numbers are modelled as rationals (`ℚ`); the geometry constants
  `hexHeight = sin(0.523598776) * sideLength` and
  `hexRadius = cos(0.523598776) * sideLength` are irrational in exact
  arithmetic, so the grid carries them as fields and theorems quantify over
  all positive values, which covers the concrete floating-point values.
* The JS `Map` of cells keyed by `"col,row"` gains no keys and loses no keys
  after `_initGrid`, and each stored cell's `col`/`row` fields always equal
  its key; the grid is therefore represented by per-field functions
  `ℤ × ℤ → _` plus the bounds, and `getHex` rebuilds the cell record exactly
  when the key is in bounds.
* The fog `Map` keyed by `"q,r"` can gain keys (via `setVisibility`), so it
  is represented as a partial map `ℤ × ℤ → Option ℚ`.
* `Math.hypot`/`Math.sqrt` appear in the source only to be compared with
  other such values or with constants, or passed to the caller; inside
  `pixelToHex` the comparison `hypot dx dy < hypot dx' dy'` is modelled by
  the equivalent comparison of squared distances (`sqrt` is strictly
  monotone on nonnegatives).  Where a square root (or `Math.pow`,
  `Math.random`, `Date.now`, `Math.cos`/`Math.sin`) escapes into state, the
  operation takes an environment of oracle functions and theorems hold for
  every oracle.
* JS `%` on integers truncates toward zero, which is `Int.tmod`.
* JS `Math.round x` is `⌊x + 1/2⌋` (round half toward +∞).
* The sources use `cell.q`/`cell.r` and `cell.col`/`cell.row`
  interchangeably for the same cell objects (e.g. `act3` reads
  `valleyCenter.q` from a `getHex` result, `act1` reads `hex.col` from the
  same kind of object); both name the cell's (column, row) pair here.
-/

namespace Hexi

/-- JS `Math.round`: round half up, `⌊x + 1/2⌋`. -/
def jround (x : ℚ) : ℤ := ⌊x + 1/2⌋

/-- The elevation clamp `Math.max(-3, Math.min(3, v))` used by
`setElevation` / `modifyElevation`. -/
def clamp3 (v : ℚ) : ℚ := max (-3) (min 3 v)

/-- One grid cell (`class HexCell` in `fog.js`). -/
structure HexCell where
  col : ℤ
  row : ℤ
  elevation : ℚ
  isRuin : Bool
  isRevealed : Bool
  isHighlighted : Bool
  isLegalMove : Bool
deriving DecidableEq

/-- The hex grid (`class HexGrid` in `fog.js`).  The cell map is stored as
per-field functions over coordinates (see the module conventions). -/
structure HexGrid where
  cols : ℤ
  rows : ℤ
  sideLength : ℚ
  hexHeight : ℚ
  hexRadius : ℚ
  padding : ℚ
  elevation : ℤ × ℤ → ℚ
  isRuin : ℤ × ℤ → Bool
  isRevealed : ℤ × ℤ → Bool
  isHighlighted : ℤ × ℤ → Bool
  isLegalMove : ℤ × ℤ → Bool

namespace HexGrid

/-- `this.xSpacing = this.hexRectangleWidth = 2 * hexRadius`. -/
def xSpacing (g : HexGrid) : ℚ := 2 * g.hexRadius

/-- `this.ySpacing = sideLength + hexHeight`. -/
def ySpacing (g : HexGrid) : ℚ := g.sideLength + g.hexHeight

/-- `this.hexRectangleHeight = sideLength + 2 * hexHeight`. -/
def hexRectangleHeight (g : HexGrid) : ℚ := g.sideLength + 2 * g.hexHeight

/-- A key is present in the cell map iff `_initGrid` created it. -/
def inBounds (g : HexGrid) (col row : ℤ) : Bool :=
  0 ≤ col && col < g.cols && 0 ≤ row && row < g.rows

/-- The grid as built by the constructor: every cell at elevation 0,
no ruins, all revealed (`_initGrid`). -/
def mkGrid (cols rows : ℤ) (sideLength hexHeight hexRadius : ℚ) : HexGrid where
  cols := cols
  rows := rows
  sideLength := sideLength
  hexHeight := hexHeight
  hexRadius := hexRadius
  padding := 10
  elevation := fun _ => 0
  isRuin := fun _ => false
  isRevealed := fun _ => true
  isHighlighted := fun _ => false
  isLegalMove := fun _ => false

/-- `getHex(col, row)`: the stored cell, or `null` when out of bounds. -/
def getHex (g : HexGrid) (col row : ℤ) : Option HexCell :=
  if g.inBounds col row then
    some ⟨col, row, g.elevation (col, row), g.isRuin (col, row),
      g.isRevealed (col, row), g.isHighlighted (col, row),
      g.isLegalMove (col, row)⟩
  else none

/-- `setElevation(col, row, val)`. -/
def setElevation (g : HexGrid) (col row : ℤ) (val : ℚ) : HexGrid :=
  match g.getHex col row with
  | none => g
  | some cell =>
    if cell.isRuin then g
    else { g with
      elevation := fun p => if p = (col, row) then clamp3 val else g.elevation p }

/-- `modifyElevation(col, row, delta)`. -/
def modifyElevation (g : HexGrid) (col row : ℤ) (delta : ℚ) : HexGrid :=
  match g.getHex col row with
  | none => g
  | some cell =>
    if cell.isRuin then g
    else { g with
      elevation := fun p =>
        if p = (col, row) then clamp3 (cell.elevation + delta) else g.elevation p }

/-- `row % 2 === 1` in JS (`%` truncates toward zero). -/
def isOddRow (row : ℤ) : Bool := row.tmod 2 == 1

/-- The six `(dc, dr)` offsets of `getNeighbors`, row-parity dependent
(directions E, NE, NW, W, SW, SE). -/
def neighborDirs (row : ℤ) : List (ℤ × ℤ) :=
  if isOddRow row then
    [(1, 0), (1, -1), (0, -1), (-1, 0), (0, 1), (1, 1)]
  else
    [(1, 0), (0, -1), (-1, -1), (-1, 0), (-1, 1), (0, 1)]

/-- `getNeighbors(col, row)`: existing cells at the six parity-dependent
offsets, in source order. -/
def getNeighbors (g : HexGrid) (col row : ℤ) : List HexCell :=
  (neighborDirs row).filterMap fun d => g.getHex (col + d.1) (row + d.2)

/-- `_getHexPosition(col, row)`: top-left corner of the hex bounding box. -/
def getHexPosition (g : HexGrid) (col row : ℤ) : ℚ × ℚ :=
  (col * g.xSpacing + (row.tmod 2 : ℤ) * g.hexRadius + g.padding,
   row * g.ySpacing + g.padding)

/-- `hexToPixel(col, row)`: center of the hex in pixels. -/
def hexToPixel (g : HexGrid) (col row : ℤ) : ℚ × ℚ :=
  let pos := g.getHexPosition col row
  (pos.1 + g.hexRadius, pos.2 + g.hexRectangleHeight / 2)

/-- Squared distance; stands in for `Math.hypot` wherever the source only
compares distances (square root is strictly monotone on nonnegatives, so
every comparison agrees). -/
def sqDist (x1 y1 x2 y2 : ℚ) : ℚ := (x1 - x2) * (x1 - x2) + (y1 - y2) * (y1 - y2)

/-- The 3×3 candidate offsets `(dr, dc)` scanned by `pixelToHex`, in source
order (outer loop `dr`, inner loop `dc`). -/
def scanOffsets : List (ℤ × ℤ) :=
  [(-1, -1), (-1, 0), (-1, 1), (0, -1), (0, 0), (0, 1), (1, -1), (1, 0), (1, 1)]

/-- One iteration of the closest-hex search in `pixelToHex`.  `best` is the
current `{col, row}`, `bestDist` is `none` for the initial `Infinity`.
`px`/`py` are the padding-stripped inputs; the source compares
`Math.hypot(px + padding - center.x, py + padding - center.y)`, modelled by
the squared distance. -/
def scanStep (g : HexGrid) (px py : ℚ) (col row : ℤ)
    (st : (ℤ × ℤ) × Option ℚ) (d : ℤ × ℤ) : (ℤ × ℤ) × Option ℚ :=
  let tr := row + d.1
  let tc := col + d.2
  match g.getHex tc tr with
  | none => st
  | some _ =>
    let center := g.hexToPixel tc tr
    let dist := sqDist (px + g.padding) (py + g.padding) center.1 center.2
    match st.2 with
    | none => ((tc, tr), some dist)
    | some bd => if dist < bd then ((tc, tr), some dist) else st

/-- `pixelToHex(px, py)`: approximate inverse transform, then disambiguate by
the true nearest center among the 3×3 neighborhood of the candidate. -/
def pixelToHex (g : HexGrid) (px py : ℚ) : ℤ × ℤ :=
  let px := px - g.padding
  let py := py - g.padding
  let row : ℤ := jround (py / g.ySpacing)
  let adjustedX := if isOddRow row then px - g.hexRadius else px
  let col : ℤ := jround (adjustedX / g.xSpacing)
  (scanOffsets.foldl (scanStep g px py col row) ((col, row), none)).1

/-- `getHexAtPixel(x, y)`. -/
def getHexAtPixel (g : HexGrid) (x y : ℚ) : Option HexCell :=
  let coords := g.pixelToHex x y
  g.getHex coords.1 coords.2

/-- `createValley(col, row, depth)`: writes `depth` to the center
unconditionally (no ruin check, no clamp) and lowers each non-ruin neighbor
to `min(current, depth + 1)`. -/
def createValley (g : HexGrid) (col row : ℤ) (depth : ℚ) : HexGrid :=
  let afterCenter :=
    match g.getHex col row with
    | none => g
    | some _ => { g with
        elevation := fun p => if p = (col, row) then depth else g.elevation p }
  let ns := g.getNeighbors col row
  { afterCenter with
    elevation := fun p =>
      if ns.any fun n => n.col == p.1 && n.row == p.2 && !n.isRuin then
        min (afterCenter.elevation p) (depth + 1)
      else afterCenter.elevation p }

/-- Modelled from the spec: `applyErosion(intensity)` is called by scenario
code (`act3-wobble.js` and others) but its definition is not among the
provided sources.  Per the spec: "for every non-terminal cell, increases
elevation by a random amount proportional to `intensity` (bounded by the
same clamp as `modifyElevation`)".  The per-cell random draw is the oracle
`rand`; the increment is `intensity * rand`. -/
def applyErosion (g : HexGrid) (intensity : ℚ) (rand : ℤ × ℤ → ℚ) : HexGrid :=
  { g with
    elevation := fun p =>
      if g.inBounds p.1 p.2 && !g.isRuin p then
        clamp3 (g.elevation p + intensity * rand p)
      else g.elevation p }

/-- `calculateGradient(col, row)`.  `sq` is the `Math.sqrt` oracle applied to
the squared argument of `Math.hypot`. -/
def calculateGradient (g : HexGrid) (sq : ℚ → ℚ) (col row : ℤ) : ℚ × ℚ :=
  match g.getHex col row with
  | none => (0, 0)
  | some cell =>
    let ns := g.getNeighbors col row
    if ns.isEmpty then (0, 0)
    else
      let pos := g.hexToPixel col row
      let acc := ns.foldl (fun (acc : ℚ × ℚ) n =>
        let npos := g.hexToPixel n.col n.row
        let dx := npos.1 - pos.1
        let dy := npos.2 - pos.2
        let dist := sq (dx * dx + dy * dy)
        if 0 < dist then
          let weight := (cell.elevation - n.elevation) / dist
          (acc.1 + dx / dist * weight, acc.2 + dy / dist * weight)
        else acc) (0, 0)
      let mag := sq (acc.1 * acc.1 + acc.2 * acc.2)
      if 0 < mag then (acc.1 / mag, acc.2 / mag) else acc

/-- `getCenteringForce(col, row, ballX, ballY, strength = 0.10)`. -/
def getCenteringForce (g : HexGrid) (sq : ℚ → ℚ) (col row : ℤ)
    (ballX ballY : ℚ) (strength : ℚ := 1/10) : ℚ × ℚ :=
  match g.getHex col row with
  | none => (0, 0)
  | some _ =>
    let center := g.hexToPixel col row
    let dx := center.1 - ballX
    let dy := center.2 - ballY
    let dist := sq (dx * dx + dy * dy)
    if dist < 1/2 then (0, 0)
    else (dx / dist * strength, dy / dist * strength)

/-- `getCanvasDimensions()`. -/
def getCanvasDimensions (g : HexGrid) : ℚ × ℚ :=
  let pos := g.getHexPosition (g.cols - 1) (g.rows - 1)
  ((⌈pos.1 + 2 * g.hexRadius + g.padding⌉ : ℤ),
   (⌈pos.2 + g.hexRectangleHeight + g.padding⌉ : ℤ))

end HexGrid

/-- Modelled from the spec: `HexGrid.DIRECTIONS` is read by
`FogSystem._getHexesInRing` but its declaration is not among the provided
sources.  Per the spec the ring traversal is "per standard hex-ring
enumeration", i.e. the six standard axial directions `(q, r)`; the walk in
the source starts at `(centerQ - radius, centerR + radius)`, which is
`radius` steps along the fifth standard direction `(-1, 1)`. -/
def DIRECTIONS : List (ℤ × ℤ) :=
  [(1, 0), (1, -1), (0, -1), (-1, 0), (-1, 1), (0, 1)]

/-- The fog-of-war overlay (`class FogSystem` in `fog.js`).  `vis` is the
`Map` from `"q,r"` keys to disclosure levels. -/
structure FogSystem where
  grid : HexGrid
  vis : ℤ × ℤ → Option ℚ

namespace FogSystem

/-- `_initializeVisibility(revealed)`: one entry per grid cell, and the
mirror `cell.isRevealed` flag on every cell. -/
def initializeVisibility (fs : FogSystem) (revealed : Bool) : FogSystem :=
  { fs with
    vis := fun p =>
      if fs.grid.inBounds p.1 p.2 then some (if revealed then 1 else 0)
      else fs.vis p
    grid := { fs.grid with
      isRevealed := fun p =>
        if fs.grid.inBounds p.1 p.2 then revealed else fs.grid.isRevealed p } }

/-- The constructor `new FogSystem(grid)`: starts with an empty map, then
initializes all as revealed. -/
def mkFog (g : HexGrid) : FogSystem :=
  initializeVisibility { grid := g, vis := fun _ => none } true

/-- `coverAll()`. -/
def coverAll (fs : FogSystem) : FogSystem :=
  { fs with
    vis := fun p => if fs.grid.inBounds p.1 p.2 then some 0 else fs.vis p
    grid := { fs.grid with
      isRevealed := fun p =>
        if fs.grid.inBounds p.1 p.2 then false else fs.grid.isRevealed p } }

/-- `revealAll()`. -/
def revealAll (fs : FogSystem) : FogSystem :=
  { fs with
    vis := fun p => if fs.grid.inBounds p.1 p.2 then some 1 else fs.vis p
    grid := { fs.grid with
      isRevealed := fun p =>
        if fs.grid.inBounds p.1 p.2 then true else fs.grid.isRevealed p } }

/-- `getVisibility(q, r)`: stored level, defaulting to 1 when the key is
absent (`?? 1`). -/
def getVisibility (fs : FogSystem) (q r : ℤ) : ℚ :=
  (fs.vis (q, r)).getD 1

/-- `setVisibility(q, r, level)`: clamps to [0,1], stores under the key
(creating it if absent), and mirrors `isRevealed` on the cell if it exists. -/
def setVisibility (fs : FogSystem) (q r : ℤ) (level : ℚ) : FogSystem :=
  let clamped := max 0 (min 1 level)
  { fs with
    vis := fun p => if p = (q, r) then some clamped else fs.vis p
    grid :=
      match fs.grid.getHex q r with
      | none => fs.grid
      | some _ => { fs.grid with
          isRevealed := fun p =>
            if p = (q, r) then decide (1/2 < clamped) else fs.grid.isRevealed p } }

/-- `isRevealed(q, r)`: `getVisibility(q, r) > 0.5`. -/
def isRevealed (fs : FogSystem) (q r : ℤ) : Bool :=
  decide (1/2 < fs.getVisibility q r)

/-- The inner walk of `_getHexesInRing`: `radius` steps from `(q, r)` along
direction `d`, collecting existing cells, returning the final position. -/
def walkDir (g : HexGrid) (d : ℤ × ℤ) : ℕ → ℤ → ℤ → List HexCell × ℤ × ℤ
  | 0, q, r => ([], q, r)
  | n + 1, q, r =>
    let head := (g.getHex q r).toList
    let rest := walkDir g d n (q + d.1) (r + d.2)
    (head ++ rest.1, rest.2)

/-- `_getHexesInRing(centerQ, centerR, radius)`: start at
`(centerQ - radius, centerR + radius)` and walk `radius` steps along each of
the six `DIRECTIONS`. -/
def getHexesInRing (fs : FogSystem) (centerQ centerR : ℤ) (radius : ℕ) :
    List HexCell :=
  let start : ℤ × ℤ := (centerQ - radius, centerR + radius)
  (DIRECTIONS.foldl
    (fun (st : List HexCell × ℤ × ℤ) d =>
      let w := walkDir fs.grid d radius st.2.1 st.2.2
      (st.1 ++ w.1, w.2))
    ([], start)).1

/-- `reveal(centerQ, centerR, radius)`, non-animated path (the `animated`
branch only defers the same `setVisibility(…, 1)` calls via timers). -/
def reveal (fs : FogSystem) (centerQ centerR : ℤ) (radius : ℕ) : FogSystem :=
  match fs.grid.getHex centerQ centerR with
  | none => fs
  | some _ =>
    let fs := fs.setVisibility centerQ centerR 1
    (List.range' 1 radius).foldl
      (fun fs ring =>
        (fs.getHexesInRing centerQ centerR ring).foldl
          (fun fs hex => fs.setVisibility hex.col hex.row 1) fs)
      fs

/-- `cover(centerQ, centerR, radius)`. -/
def cover (fs : FogSystem) (centerQ centerR : ℤ) (radius : ℕ) : FogSystem :=
  match fs.grid.getHex centerQ centerR with
  | none => fs
  | some _ =>
    let fs := fs.setVisibility centerQ centerR 0
    (List.range' 1 radius).foldl
      (fun fs ring =>
        (fs.getHexesInRing centerQ centerR ring).foldl
          (fun fs hex => fs.setVisibility hex.col hex.row 0) fs)
      fs

end FogSystem

/-- Oracle environment for one `Ball.update` call: `Date.now()` (`now`), the
`Math.sqrt` value on a squared argument (`sq`), `Math.pow(Ball.FRICTION, ·)`
(`powFriction`), and the random draws of `_applyNoise` (`chance` for the
probability test, `noiseCos`/`noiseSin` for the random angle's cosine and
sine, `magRand` for the magnitude draw). -/
structure UpdateEnv where
  now : ℚ
  sq : ℚ → ℚ
  powFriction : ℚ → ℚ
  chance : ℚ
  noiseCos : ℚ
  noiseSin : ℚ
  magRand : ℚ

/-- The marker (`class Ball` in the unnamed source).  Purely visual fields
(`radius`, `color`, `trailColor`) are omitted; they are never read by the
simulation. -/
structure Ball where
  grid : HexGrid
  x : ℚ
  y : ℚ
  vx : ℚ
  vy : ℚ
  trail : List (ℚ × ℚ)
  positionHistory : List (ℚ × ℚ × ℚ)
  historyMaxLength : ℕ
  isInRuin : Bool
  noiseLevel : ℚ
  oscillationAmplitude : ℚ
  recoveryRate : ℚ
  lastPerturbationTime : ℚ
  equilibriumX : ℚ
  equilibriumY : ℚ
  distanceFromEquilibrium : ℚ
  isDiscreteMode : Bool
  targetX : Option ℚ
  targetY : Option ℚ
  moveDuration : ℚ
  moveStartTime : ℚ
  sourceX : ℚ
  sourceY : ℚ
  isMoving : Bool

namespace Ball

/-- The constructor `new Ball(grid, startQ, startR)`. -/
def mkBall (g : HexGrid) (startQ startR : ℤ) : Ball :=
  let startPos := g.hexToPixel startQ startR
  { grid := g
    x := startPos.1, y := startPos.2, vx := 0, vy := 0
    trail := [], positionHistory := [], historyMaxLength := 120
    isInRuin := false, noiseLevel := 0
    oscillationAmplitude := 0, recoveryRate := 1
    lastPerturbationTime := 0
    equilibriumX := startPos.1, equilibriumY := startPos.2
    distanceFromEquilibrium := 0
    isDiscreteMode := false, targetX := none, targetY := none
    moveDuration := 300, moveStartTime := 0
    sourceX := 0, sourceY := 0, isMoving := false }

/-- `_updateDiscrete(dt)` (reads `Date.now()`, not `dt`). -/
def updateDiscrete (env : UpdateEnv) (b : Ball) : Ball :=
  match b.targetX, b.targetY with
  | some tx, some ty =>
    let elapsed := env.now - b.moveStartTime
    let t := min 1 (elapsed / b.moveDuration)
    let easedT := if t < 1/2 then 2 * t * t else -1 + (4 - 2 * t) * t
    let b1 := { b with x := b.sourceX + (tx - b.sourceX) * easedT,
                       y := b.sourceY + (ty - b.sourceY) * easedT }
    if 1 ≤ t then
      { b1 with x := tx, y := ty, targetX := none, targetY := none,
                vx := 0, vy := 0 }
    else b1
  | _, _ => b

/-- `_updateTrail()`: push the current position to the trail (cap 60) and to
the timed history (cap `historyMaxLength`); the caps evict the oldest
entry. -/
def updateTrail (env : UpdateEnv) (b : Ball) : Ball :=
  let t := b.trail ++ [(b.x, b.y)]
  let t := if 60 < t.length then t.drop 1 else t
  let h := b.positionHistory ++ [(b.x, b.y, env.now)]
  let h := if b.historyMaxLength < h.length then h.drop 1 else h
  { b with trail := t, positionHistory := h }

/-- `_updateMetrics()`: oscillation amplitude, recovery rate, and distance
from equilibrium; no-op until the history holds 30 samples. -/
def updateMetrics (env : UpdateEnv) (b : Ball) : Ball :=
  if b.positionHistory.length < 30 then b
  else
    let recent := b.positionHistory.drop (b.positionHistory.length - 30)
    let len : ℚ := recent.length
    let meanX := (recent.map fun p => p.1).sum / len
    let meanY := (recent.map fun p => p.2.1).sum / len
    let variance :=
      (recent.map fun p =>
        (p.1 - meanX) * (p.1 - meanX) + (p.2.1 - meanY) * (p.2.1 - meanY)).sum
        / len
    let speed := env.sq (b.vx * b.vx + b.vy * b.vy)
    { b with
      oscillationAmplitude := min 1 (env.sq variance / 50)
      recoveryRate := max 0 (1 - speed / 8)
      distanceFromEquilibrium :=
        env.sq ((b.x - b.equilibriumX) * (b.x - b.equilibriumX) +
                (b.y - b.equilibriumY) * (b.y - b.equilibriumY)) }

/-- `_applyNoise(timeScale)`. -/
def applyNoise (env : UpdateEnv) (b : Ball) : Ball :=
  if env.chance < b.noiseLevel * (1/10) then
    let magnitude := b.noiseLevel * (1/2) * (1/2 + env.magRand * (1/2))
    { b with vx := b.vx + env.noiseCos * magnitude * 10,
             vy := b.vy + env.noiseSin * magnitude * 10,
             lastPerturbationTime := env.now }
  else b

/-- `_applyCenteringForce()`: recenters toward the canvas midpoint when the
ball is off the grid. -/
def applyCenteringOutside (env : UpdateEnv) (b : Ball) : Ball :=
  let dims := b.grid.getCanvasDimensions
  let dx := dims.1 / 2 - b.x
  let dy := dims.2 / 2 - b.y
  let dist := env.sq (dx * dx + dy * dy)
  if 0 < dist then
    { b with vx := b.vx + dx / dist * (1/2), vy := b.vy + dy / dist * (1/2) }
  else b

/-- `update(dt)`: one frame.  Mirrors the source's control flow: terminal
state short-circuits; discrete mode dispatches to `_updateDiscrete`;
otherwise the continuous integration runs, with an early return (no
friction, trail, or metrics) on the step that enters a ruin cell. -/
def update (env : UpdateEnv) (b : Ball) (dt : ℚ := 1667/100) : Ball :=
  if b.isInRuin then b
  else if b.isDiscreteMode then
    updateMetrics env (updateTrail env (updateDiscrete env b))
  else
    let timeScale := dt / (1667/100)
    let forces : Option Ball :=
      match b.grid.getHexAtPixel b.x b.y with
      | none => some (applyCenteringOutside env b)
      | some cell =>
        if cell.isRuin then none
        else
          let gradient := b.grid.calculateGradient env.sq cell.col cell.row
          let b1 := { b with vx := b.vx + gradient.1 * (3/20) * timeScale,
                             vy := b.vy + gradient.2 * (3/20) * timeScale }
          let speed := env.sq (b1.vx * b1.vx + b1.vy * b1.vy)
          some (if speed < 3/2 then
            let c := b.grid.getCenteringForce env.sq cell.col cell.row b1.x b1.y
            { b1 with vx := b1.vx + c.1 * 2 * timeScale,
                      vy := b1.vy + c.2 * 2 * timeScale }
          else b1)
    match forces with
    | none => { b with isInRuin := true }
    | some b2 =>
      let b3 := if 0 < b2.noiseLevel then applyNoise env b2 else b2
      let f := env.powFriction timeScale
      let b4 := { b3 with vx := b3.vx * f, vy := b3.vy * f }
      let speed := env.sq (b4.vx * b4.vx + b4.vy * b4.vy)
      let b5 :=
        if 8 < speed then
          { b4 with vx := b4.vx * (8 / speed), vy := b4.vy * (8 / speed) }
        else b4
      let b6 := { b5 with x := b5.x + b5.vx * timeScale,
                          y := b5.y + b5.vy * timeScale }
      updateMetrics env (updateTrail env b6)

/-- `moveTo(col, row, duration = 300)` (reads `Date.now()` as `now`). -/
def moveTo (b : Ball) (col row : ℤ) (now : ℚ) (duration : ℚ := 300) : Ball :=
  let pos := b.grid.hexToPixel col row
  { b with sourceX := b.x, sourceY := b.y,
           targetX := some pos.1, targetY := some pos.2,
           moveDuration := duration, moveStartTime := now, isMoving := true }

/-- `isMovingDiscrete()`. -/
def isMovingDiscrete (b : Ball) : Bool := b.targetX.isSome

end Ball

open HexGrid FogSystem

/-- A concrete grid for witnesses: 5×5, side length 25, with
`hexHeight = 25/2` and `hexRadius = 433/20` standing for the float values of
`sin(0.523598776) * 25` and `cos(0.523598776) * 25`. -/
def G0 : HexGrid := mkGrid 5 5 25 (25/2) (433/20)

/-- A 5×5 grid whose cell (0,0) is terminal, for counterexamples. -/
def G0r : HexGrid := { G0 with isRuin := fun p => decide (p = (0, 0)) }

/-- Coordinate-level adjacency: the offset from `(ca, ra)` to `(cb, rb)` is
one of the six parity-dependent neighbor offsets for row `ra`.  This
predicate mentions no elevation or flag data. -/
def adjacentCoords (ca ra cb rb : ℤ) : Prop :=
  (cb - ca, rb - ra) ∈ neighborDirs ra

instance (ca ra cb rb : ℤ) : Decidable (adjacentCoords ca ra cb rb) :=
  inferInstanceAs (Decidable ((cb - ca, rb - ra) ∈ neighborDirs ra))

/-- The public mutating operations of the Visibility Overlay, for stating
properties of arbitrary operation sequences. -/
inductive FogOp where
  | doReveal (q r : ℤ) (radius : ℕ)
  | doCover (q r : ℤ) (radius : ℕ)
  | doSetVis (q r : ℤ) (level : ℚ)
  | doCoverAll
  | doRevealAll

/-- Running one operation. -/
def applyOp (fs : FogSystem) : FogOp → FogSystem
  | .doReveal q r radius => fs.reveal q r radius
  | .doCover q r radius => fs.cover q r radius
  | .doSetVis q r level => fs.setVisibility q r level
  | .doCoverAll => fs.coverAll
  | .doRevealAll => fs.revealAll

/-- Running a sequence of operations. -/
def applyOps (fs : FogSystem) (ops : List FogOp) : FogSystem :=
  ops.foldl applyOp fs

/-- An operation addresses only in-grid coordinates (always true except for
an out-of-bounds `setVisibility`). -/
def opInBounds (g : HexGrid) : FogOp → Prop
  | .doSetVis q r _ => g.inBounds q r = true
  | _ => True

/-- The claimed invariant, relative to the grid the overlay was built on:
the stored mapping has exactly the grid cells as its domain, and every
stored level lies in [0, 1]; the grid dimensions never change. -/
def GoodFS (g : HexGrid) (fs : FogSystem) : Prop :=
  fs.grid.cols = g.cols ∧ fs.grid.rows = g.rows ∧
  (∀ p : ℤ × ℤ, ((fs.vis p).isSome ↔ g.inBounds p.1 p.2 = true) ∧
    ∀ v, fs.vis p = some v → 0 ≤ v ∧ v ≤ 1)

/-- The coordinates of the cells one ring sweep keeps. -/
def ringCoords (fs : FogSystem) (q r : ℤ) (k : ℕ) : List (ℤ × ℤ) :=
  (fs.getHexesInRing q r k).map fun c => (c.col, c.row)

/-- The coordinates `reveal(q, r, radius)` and `cover(q, r, radius)` write
(both run the same sweep): the center plus every cell kept by the ring
walks for k = 1..radius. -/
def sweepCoords (fs : FogSystem) (q r : ℤ) (radius : ℕ) : List (ℤ × ℤ) :=
  (q, r) :: (List.range' 1 radius).flatMap (ringCoords fs q r)

/-- A minimal 1×1 grid with zero padding whose only cell is terminal, for
concrete Marker runs (side length 2, hexHeight 1, hexRadius 1, so the cell
center is the point (1, 2)). -/
def GW : HexGrid where
  cols := 1
  rows := 1
  sideLength := 2
  hexHeight := 1
  hexRadius := 1
  padding := 0
  elevation := fun _ => 0
  isRuin := fun _ => true
  isRevealed := fun _ => true
  isHighlighted := fun _ => false
  isLegalMove := fun _ => false

/-- The same minimal grid with no terminal cell. -/
def GW2 : HexGrid := { GW with isRuin := fun _ => false }

/-- A concrete update environment: clock reading `now`, square-root and
friction-power oracles stubbed with simple total functions, no noise
draws triggered. -/
def mkEnvW (now : ℚ) : UpdateEnv where
  now := now
  sq := fun _ => 0
  powFriction := fun _ => 1
  chance := 1
  noiseCos := 0
  noiseSin := 0
  magRand := 0

/-- A Marker sitting at the center (1, 2) of the terminal 1×1 grid. -/
def BW : Ball := { Ball.mkBall GW 0 0 with x := 1, y := 2 }

/-- A Marker sitting at the center (1, 2) of the ruin-free 1×1 grid. -/
def BW2 : Ball := { Ball.mkBall GW2 0 0 with x := 1, y := 2 }

/-- Invariant of a discrete move towards the pixel target (X, Y) started at
time `t0` with the default 300 ms duration: either the move is still
pending, or it has completed exactly at the target with zero velocity. -/
def MoveInv (X Y t0 : ℚ) (b : Ball) : Prop :=
  b.isDiscreteMode = true ∧ b.isInRuin = false ∧ b.moveDuration = 300 ∧
  b.moveStartTime = t0 ∧
  ((b.targetX = some X ∧ b.targetY = some Y) ∨
   (b.targetX = none ∧ b.targetY = none ∧ b.x = X ∧ b.y = Y ∧
    b.vx = 0 ∧ b.vy = 0))

/-! ## Theorems -/



/-- C1: for every cell and every value/delta, `setElevation(cell, value)`
and `modifyElevation(cell, delta)` leave the addressed non-terminal cell's
elevation in [-3, 3]; if the cell is terminal both are no-ops on it; and
neither operation changes any other cell or any non-elevation field. -/
theorem C1_elevation_writes_clamped_and_local
    (g : HexGrid) (col row : ℤ) (v d : ℚ) :
    (∀ p, p ≠ (col, row) →
      (g.setElevation col row v).elevation p = g.elevation p ∧
      (g.modifyElevation col row d).elevation p = g.elevation p) ∧
    ((g.setElevation col row v).isRuin = g.isRuin ∧
     (g.modifyElevation col row d).isRuin = g.isRuin ∧
     (g.setElevation col row v).isRevealed = g.isRevealed ∧
     (g.modifyElevation col row d).isRevealed = g.isRevealed ∧
     (g.setElevation col row v).cols = g.cols ∧
     (g.modifyElevation col row d).cols = g.cols ∧
     (g.setElevation col row v).rows = g.rows ∧
     (g.modifyElevation col row d).rows = g.rows) ∧
    (g.isRuin (col, row) = true →
      (g.setElevation col row v).elevation (col, row) = g.elevation (col, row) ∧
      (g.modifyElevation col row d).elevation (col, row) = g.elevation (col, row)) ∧
    (g.inBounds col row = true → g.isRuin (col, row) = false →
      ((g.setElevation col row v).elevation (col, row) = clamp3 v ∧
       -3 ≤ (g.setElevation col row v).elevation (col, row) ∧
       (g.setElevation col row v).elevation (col, row) ≤ 3) ∧
      ((g.modifyElevation col row d).elevation (col, row) =
         clamp3 (g.elevation (col, row) + d) ∧
       -3 ≤ (g.modifyElevation col row d).elevation (col, row) ∧
       (g.modifyElevation col row d).elevation (col, row) ≤ 3)) := by
  have hclamp : ∀ q : ℚ, -3 ≤ clamp3 q ∧ clamp3 q ≤ 3 := by
    intro q
    unfold clamp3
    refine ⟨le_max_left _ _, max_le (by norm_num) (min_le_left _ _)⟩
  refine ⟨?_, ?_, ?_, ?_⟩
  · intro p hp
    unfold setElevation modifyElevation getHex
    by_cases hb : g.inBounds col row
    · by_cases hr : g.isRuin (col, row)
      · simp [hb, hr]
      · simp [hb, hr, hp]
    · simp [hb]
  · unfold setElevation modifyElevation getHex
    by_cases hb : g.inBounds col row
    · by_cases hr : g.isRuin (col, row)
      · simp [hb, hr]
      · simp [hb, hr]
    · simp [hb]
  · intro h
    unfold setElevation modifyElevation getHex
    by_cases hb : g.inBounds col row
    · simp [hb, h]
    · simp [hb]
  · intro hb hr
    have hset : (g.setElevation col row v).elevation (col, row) = clamp3 v := by
      unfold setElevation getHex
      simp [hb, hr]
    have hmod : (g.modifyElevation col row d).elevation (col, row) =
        clamp3 (g.elevation (col, row) + d) := by
      unfold modifyElevation getHex
      simp [hb, hr]
    refine ⟨⟨hset, ?_, ?_⟩, ⟨hmod, ?_, ?_⟩⟩
    · rw [hset]; exact (hclamp _).1
    · rw [hset]; exact (hclamp _).2
    · rw [hmod]; exact (hclamp _).1
    · rw [hmod]; exact (hclamp _).2

/-- C1 witness: on the concrete 5×5 grid, writing 99 to cell (0,0) and
adding −99 to it both land the elevation inside [-3, 3]. -/
theorem C1_witness :
    (((G0.setElevation 0 0 99).elevation (0, 0) = clamp3 99 ∧
      -3 ≤ (G0.setElevation 0 0 99).elevation (0, 0) ∧
      (G0.setElevation 0 0 99).elevation (0, 0) ≤ 3) ∧
     ((G0.modifyElevation 0 0 (-99)).elevation (0, 0) =
        clamp3 (G0.elevation (0, 0) + -99) ∧
      -3 ≤ (G0.modifyElevation 0 0 (-99)).elevation (0, 0) ∧
      (G0.modifyElevation 0 0 (-99)).elevation (0, 0) ≤ 3)) :=
  (C1_elevation_writes_clamped_and_local G0 0 0 99 (-99)).2.2.2
    (by decide) (by decide)

/-- Unpacking a successful `getHex`: the cell's fields mirror the stored
functions at its own coordinates. -/
theorem getHex_some {g : HexGrid} {col row : ℤ} {c : HexCell}
    (h : g.getHex col row = some c) :
    c.col = col ∧ c.row = row ∧ c.elevation = g.elevation (col, row) ∧
    c.isRuin = g.isRuin (col, row) ∧ c.isRevealed = g.isRevealed (col, row) ∧
    g.inBounds col row = true := by
  unfold getHex at h
  by_cases hb : g.inBounds col row
  · rw [if_pos hb] at h
    obtain rfl := (Option.some_injective _ h).symm
    exact ⟨rfl, rfl, rfl, rfl, rfl, hb⟩
  · rw [if_neg hb] at h
    cases h

/-- Cells returned by `getNeighbors` are exactly the stored cells at their
own coordinates, reached by one of the parity-dependent offsets. -/
theorem mem_getNeighbors {g : HexGrid} {col row : ℤ} {n : HexCell}
    (h : n ∈ g.getNeighbors col row) :
    g.getHex n.col n.row = some n ∧
    ∃ d ∈ neighborDirs row, n.col = col + d.1 ∧ n.row = row + d.2 := by
  unfold getNeighbors at h
  rcases List.mem_filterMap.mp h with ⟨d, hd, hget⟩
  obtain ⟨hc, hr, _⟩ := getHex_some hget
  rw [← hc, ← hr] at hget
  exact ⟨hget, d, hd, hc, hr⟩



/-- C9 counterexample: `createValley((0,0), -5)` on a grid whose center cell
(0,0) is terminal with elevation 0 rewrites that terminal cell's elevation
to -5 — both changing a terminal cell and leaving the [-3, 3] range, so the
claim fails as stated. -/
theorem C9_counterexample :
    G0r.isRuin (0, 0) = true ∧
    G0r.elevation (0, 0) = 0 ∧
    (G0r.createValley 0 0 (-5)).elevation (0, 0) = -5 ∧
    ¬(-3 : ℚ) ≤ (G0r.createValley 0 0 (-5)).elevation (0, 0) := by
  refine ⟨by decide, by decide, ?_, ?_⟩ <;> decide

/-- C9 amended: `createValley(center, depth)` preserves elevation ∈ [-3, 3]
and changes no terminal cell's elevation, provided the center cell is not
terminal and `depth` itself lies in [-3, 3]; terminal flags are never
changed. -/
theorem C9_createValley_preserves_invariant
    (g : HexGrid) (col row : ℤ) (depth : ℚ)
    (hinv : ∀ p, -3 ≤ g.elevation p ∧ g.elevation p ≤ 3)
    (hdlo : -3 ≤ depth) (hdhi : depth ≤ 3)
    (hcenter : g.isRuin (col, row) = false) :
    (∀ p, -3 ≤ (g.createValley col row depth).elevation p ∧
          (g.createValley col row depth).elevation p ≤ 3) ∧
    (∀ p, g.isRuin p = true →
          (g.createValley col row depth).elevation p = g.elevation p) ∧
    (g.createValley col row depth).isRuin = g.isRuin := by
  have hafter :
      ∀ p, -3 ≤ (g.createValley col row depth).elevation p ∧
        (g.createValley col row depth).elevation p ≤ 3 := by
    intro p
    unfold createValley
    simp only
    set ac := match g.getHex col row with
      | none => g
      | some _ => { g with
          elevation := fun q => if q = (col, row) then depth else g.elevation q }
      with hac
    have hacbound : -3 ≤ ac.elevation p ∧ ac.elevation p ≤ 3 := by
      rw [hac]
      cases hg : g.getHex col row with
      | none => exact hinv p
      | some c =>
        simp only
        by_cases hp : p = (col, row)
        · rw [if_pos hp]; exact ⟨hdlo, hdhi⟩
        · rw [if_neg hp]; exact hinv p
    by_cases hany : (g.getNeighbors col row).any
        fun n => n.col == p.1 && n.row == p.2 && !n.isRuin
    · rw [if_pos hany]
      refine ⟨le_min hacbound.1 (by linarith), le_trans (min_le_left _ _) hacbound.2⟩
    · rw [if_neg hany]
      exact hacbound
  refine ⟨hafter, ?_, ?_⟩
  · intro p hp
    unfold createValley
    simp only
    have hpc : p ≠ (col, row) := fun h => by rw [h] at hp; rw [hp] at hcenter; cases hcenter
    have hany : ¬ (g.getNeighbors col row).any
        fun n => n.col == p.1 && n.row == p.2 && !n.isRuin := by
      intro hany
      rcases List.any_eq_true.mp hany with ⟨n, hn, hcond⟩
      have hcol : n.col = p.1 := by
        have h1 := (Bool.and_eq_true _ _).mp hcond
        exact beq_iff_eq.mp ((Bool.and_eq_true _ _).mp h1.1).1
      have hrow : n.row = p.2 := by
        have h1 := (Bool.and_eq_true _ _).mp hcond
        exact beq_iff_eq.mp ((Bool.and_eq_true _ _).mp h1.1).2
      have hruin : n.isRuin = false := by
        have h1 := (Bool.and_eq_true _ _).mp hcond
        simpa using h1.2
      have hmir := (getHex_some (mem_getNeighbors hn).1).2.2.2.1
      rw [hruin, hcol, hrow] at hmir
      rw [Prod.mk.eta] at hmir
      rw [hp] at hmir
      cases hmir
    rw [if_neg hany]
    cases hg : g.getHex col row with
    | none => rfl
    | some c => simp only; rw [if_neg hpc]
  · unfold createValley
    simp only
    cases hg : g.getHex col row with
    | none => rfl
    | some c => rfl

/-- Unpacking `inBounds`. -/
theorem inBounds_iff {g : HexGrid} {col row : ℤ} :
    g.inBounds col row = true ↔
      0 ≤ col ∧ col < g.cols ∧ 0 ≤ row ∧ row < g.rows := by
  unfold inBounds
  simp [Bool.and_eq_true, decide_eq_true_iff, and_assoc]



/-- Membership in `getNeighbors` is: the cell is stored at its own
coordinates, and those coordinates are adjacent to the queried ones. -/
theorem mem_getNeighbors_iff {g : HexGrid} {ca ra : ℤ} {B : HexCell} :
    B ∈ g.getNeighbors ca ra ↔
      g.getHex B.col B.row = some B ∧ adjacentCoords ca ra B.col B.row := by
  constructor
  · intro h
    obtain ⟨hsome, d, hd, hc, hr⟩ := mem_getNeighbors h
    refine ⟨hsome, ?_⟩
    unfold adjacentCoords
    have hdd : (B.col - ca, B.row - ra) = d := by
      rw [hc, hr]
      exact Prod.ext (by ring) (by ring)
    rw [hdd]
    exact hd
  · rintro ⟨hsome, had⟩
    unfold getNeighbors
    refine List.mem_filterMap.mpr ⟨(B.col - ca, B.row - ra), had, ?_⟩
    rw [show ca + (B.col - ca) = B.col by ring, show ra + (B.row - ra) = B.row by ring]
    exact hsome

/-- For a nonnegative row, `isOddRow` is ordinary parity. -/
theorem isOddRow_iff {r : ℤ} (h : 0 ≤ r) : isOddRow r = true ↔ r % 2 = 1 := by
  unfold isOddRow
  rw [Int.tmod_eq_emod h (by norm_num)]
  simp

/-- For a nonnegative even row, `isOddRow` is false. -/
theorem isOddRow_false {r : ℤ} (h0 : 0 ≤ r) (h : r % 2 = 0) :
    isOddRow r = false := by
  rcases Bool.eq_false_or_eq_true (isOddRow r) with hh | hh
  · rw [isOddRow_iff h0] at hh
    omega
  · exact hh

/-- For a nonnegative odd row, `isOddRow` is true. -/
theorem isOddRow_true {r : ℤ} (h0 : 0 ≤ r) (h : r % 2 = 1) :
    isOddRow r = true := (isOddRow_iff h0).mpr h

/-- The even-row offset table, explicitly. -/
theorem neighborDirs_even {r : ℤ} (h : isOddRow r = false) :
    neighborDirs r = [(1, 0), (0, -1), (-1, -1), (-1, 0), (-1, 1), (0, 1)] := by
  simp [neighborDirs, h]

/-- The odd-row offset table, explicitly. -/
theorem neighborDirs_odd {r : ℤ} (h : isOddRow r = true) :
    neighborDirs r = [(1, 0), (1, -1), (0, -1), (-1, 0), (0, 1), (1, 1)] := by
  simp [neighborDirs, h]

set_option maxHeartbeats 1000000 in
/-- The parity-dependent offset table is symmetric: the offset from A to B
is a neighbor offset for A's row parity iff its negation is one for B's. -/
theorem adjacentCoords_symm {ca ra cb rb : ℤ} (ha : 0 ≤ ra) (hb : 0 ≤ rb) :
    adjacentCoords ca ra cb rb ↔ adjacentCoords cb rb ca ra := by
  unfold adjacentCoords
  rcases Int.emod_two_eq_zero_or_one ra with h1 | h1 <;>
    rcases Int.emod_two_eq_zero_or_one rb with h2 | h2
  · rw [neighborDirs_even (isOddRow_false ha h1),
      neighborDirs_even (isOddRow_false hb h2)]
    simp only [List.mem_cons, Prod.mk.injEq, List.not_mem_nil, or_false]
    omega
  · rw [neighborDirs_even (isOddRow_false ha h1),
      neighborDirs_odd (isOddRow_true hb h2)]
    simp only [List.mem_cons, Prod.mk.injEq, List.not_mem_nil, or_false]
    omega
  · rw [neighborDirs_odd (isOddRow_true ha h1),
      neighborDirs_even (isOddRow_false hb h2)]
    simp only [List.mem_cons, Prod.mk.injEq, List.not_mem_nil, or_false]
    omega
  · rw [neighborDirs_odd (isOddRow_true ha h1),
      neighborDirs_odd (isOddRow_true hb h2)]
    simp only [List.mem_cons, Prod.mk.injEq, List.not_mem_nil, or_false]
    omega

/-- C9 witness (amended claim): carving a depth −2 valley at the ruin-free
cell (2,2) of the concrete all-zero grid keeps the neighbor (3,2)'s
elevation inside [-3, 3]. -/
theorem C9_witness :
    -3 ≤ (G0.createValley 2 2 (-2)).elevation (3, 2) ∧
    (G0.createValley 2 2 (-2)).elevation (3, 2) ≤ 3 :=
  (C9_createValley_preserves_invariant G0 2 2 (-2)
    (fun p => by constructor <;> norm_num [G0, mkGrid])
    (by norm_num) (by norm_num) (by decide)).1 (3, 2)

/-- C4: adjacency is symmetric — for in-bounds cells A at (ca, ra) and B at
(cb, rb), B ∈ getNeighbors(A) iff A ∈ getNeighbors(B) — and membership is
purely a function of the coordinates and row parity: it is equivalent to the
coordinate-only predicate `adjacentCoords`, hence holds identically in any
grid whose map stores a cell at the target coordinates, regardless of
elevations. -/
theorem C4_adjacency_symmetric_and_coordinate_only
    (g : HexGrid) (ca ra cb rb : ℤ) (A B : HexCell)
    (hA : g.getHex ca ra = some A) (hB : g.getHex cb rb = some B) :
    (B ∈ g.getNeighbors ca ra ↔ A ∈ g.getNeighbors cb rb) ∧
    (B ∈ g.getNeighbors ca ra ↔ adjacentCoords ca ra cb rb) ∧
    (∀ (g2 : HexGrid) (B2 : HexCell), g2.getHex cb rb = some B2 →
      (B ∈ g.getNeighbors ca ra ↔ B2 ∈ g2.getNeighbors ca ra)) := by
  obtain ⟨hBc, hBr, -, -, -, hBin⟩ := getHex_some hB
  obtain ⟨hAc, hAr, -, -, -, hAin⟩ := getHex_some hA
  have hra : 0 ≤ ra := (inBounds_iff.mp hAin).2.2.1
  have hrb : 0 ≤ rb := (inBounds_iff.mp hBin).2.2.1
  have keyB : B ∈ g.getNeighbors ca ra ↔ adjacentCoords ca ra cb rb := by
    rw [mem_getNeighbors_iff, hBc, hBr]
    simp [hB]
  have keyA : A ∈ g.getNeighbors cb rb ↔ adjacentCoords cb rb ca ra := by
    rw [mem_getNeighbors_iff, hAc, hAr]
    simp [hA]
  refine ⟨?_, keyB, ?_⟩
  · rw [keyB, keyA]
    exact adjacentCoords_symm hra hrb
  · intro g2 B2 hB2
    obtain ⟨hB2c, hB2r, -, -, -, -⟩ := getHex_some hB2
    have key2 : B2 ∈ g2.getNeighbors ca ra ↔ adjacentCoords ca ra cb rb := by
      rw [mem_getNeighbors_iff, hB2c, hB2r]
      simp [hB2]
    rw [keyB, key2]

/-- C4 witness: on the concrete 5×5 grid, the cell at (1,1) is a neighbor of
(2,2) iff conversely; both cells exist. -/
theorem C4_witness :
    ((⟨1, 1, 0, false, true, false, false⟩ : HexCell) ∈ G0.getNeighbors 2 2 ↔
      (⟨2, 2, 0, false, true, false, false⟩ : HexCell) ∈ G0.getNeighbors 1 1) :=
  (C4_adjacency_symmetric_and_coordinate_only G0 2 2 1 1
    ⟨2, 2, 0, false, true, false, false⟩ ⟨1, 1, 0, false, true, false, false⟩
    (by decide) (by decide)).1

/-- `clamp3` is the identity on [-3, 3]. -/
theorem clamp3_eq_self {q : ℚ} (hlo : -3 ≤ q) (hhi : q ≤ 3) : clamp3 q = q := by
  unfold clamp3
  rw [min_eq_right hhi, max_eq_right hlo]

/-- C5: on any grid state satisfying the documented elevation invariant,
`applyErosion(0)` changes no cell's elevation; and for every intensity and
every random draw, `applyErosion` leaves every terminal cell's elevation
unchanged (in particular never raises it) and never changes any terminal
flag. -/
theorem C5_applyErosion_zero_noop_terminal_untouched
    (g : HexGrid) (rand : ℤ × ℤ → ℚ)
    (hinv : ∀ p, -3 ≤ g.elevation p ∧ g.elevation p ≤ 3) :
    (∀ p, (g.applyErosion 0 rand).elevation p = g.elevation p) ∧
    (∀ intensity p, g.isRuin p = true →
      (g.applyErosion intensity rand).elevation p = g.elevation p) ∧
    (∀ intensity, (g.applyErosion intensity rand).isRuin = g.isRuin) := by
  refine ⟨?_, ?_, fun _ => rfl⟩
  · intro p
    unfold applyErosion
    simp only
    by_cases h : (g.inBounds p.1 p.2 && !g.isRuin p) = true
    · rw [if_pos h]
      rw [zero_mul, add_zero]
      exact clamp3_eq_self (hinv p).1 (hinv p).2
    · rw [if_neg h]
  · intro intensity p hp
    unfold applyErosion
    simp only
    rw [if_neg]
    simp [hp]

/-- C5 witness: on the concrete all-zero 5×5 grid, eroding with intensity 0
under the constant random draw 1 leaves cell (0,0)'s elevation unchanged. -/
theorem C5_witness :
    (G0.applyErosion 0 (fun _ => 1)).elevation (0, 0) = G0.elevation (0, 0) :=
  (C5_applyErosion_zero_noop_terminal_untouched G0 (fun _ => 1)
    (fun p => by constructor <;> norm_num [G0, mkGrid])).1 (0, 0)





/-- `inBounds` only reads the dimensions. -/
theorem inBounds_congr {g g2 : HexGrid} (hc : g2.cols = g.cols)
    (hr : g2.rows = g.rows) (col row : ℤ) :
    g2.inBounds col row = g.inBounds col row := by
  unfold inBounds
  rw [hc, hr]

/-- A fresh overlay satisfies the invariant. -/
theorem goodFS_mkFog (g : HexGrid) : GoodFS g (mkFog g) := by
  refine ⟨rfl, rfl, fun p => ⟨?_, ?_⟩⟩
  · unfold mkFog initializeVisibility
    by_cases h : g.inBounds p.1 p.2 <;> simp [h]
  · intro v hv
    unfold mkFog initializeVisibility at hv
    simp only at hv
    by_cases h : g.inBounds p.1 p.2
    · rw [if_pos h] at hv
      obtain rfl := Option.some_injective _ hv.symm
      norm_num
    · rw [if_neg h] at hv
      cases hv

/-- `setVisibility` at in-grid coordinates preserves the invariant. -/
theorem goodFS_setVisibility {g : HexGrid} {fs : FogSystem} (hfs : GoodFS g fs)
    {q r : ℤ} (hqr : g.inBounds q r = true) (level : ℚ) :
    GoodFS g (fs.setVisibility q r level) := by
  obtain ⟨hc, hr, hp⟩ := hfs
  unfold setVisibility
  refine ⟨?_, ?_, fun p => ⟨?_, ?_⟩⟩
  · simp only
    cases fs.grid.getHex q r <;> simpa using hc
  · simp only
    cases fs.grid.getHex q r <;> simpa using hr
  · simp only
    by_cases hpq : p = (q, r)
    · rw [if_pos hpq, hpq]
      simpa using hqr
    · rw [if_neg hpq]
      exact (hp p).1
  · intro v hv
    simp only at hv
    by_cases hpq : p = (q, r)
    · rw [if_pos hpq] at hv
      obtain rfl := Option.some_injective _ hv.symm
      constructor
      · exact le_max_left _ _
      · exact max_le (by norm_num) (min_le_left _ _)
    · rw [if_neg hpq] at hv
      exact (hp p).2 v hv

/-- `coverAll` preserves the invariant. -/
theorem goodFS_coverAll {g : HexGrid} {fs : FogSystem} (hfs : GoodFS g fs) :
    GoodFS g fs.coverAll := by
  obtain ⟨hc, hr, hp⟩ := hfs
  refine ⟨hc, hr, fun p => ⟨?_, ?_⟩⟩ <;>
    simp only [coverAll, inBounds_congr hc hr]
  · by_cases h : g.inBounds p.1 p.2
    · simp [h]
    · simp only [h, Bool.false_eq_true, if_false]
      rw [(hp p).1]
      simp [h]
  · intro v hv
    by_cases h : g.inBounds p.1 p.2
    · rw [if_pos h] at hv
      obtain rfl := Option.some_injective _ hv.symm
      norm_num
    · rw [if_neg h] at hv
      exact (hp p).2 v hv

/-- `revealAll` preserves the invariant. -/
theorem goodFS_revealAll {g : HexGrid} {fs : FogSystem} (hfs : GoodFS g fs) :
    GoodFS g fs.revealAll := by
  obtain ⟨hc, hr, hp⟩ := hfs
  refine ⟨hc, hr, fun p => ⟨?_, ?_⟩⟩ <;>
    simp only [revealAll, inBounds_congr hc hr]
  · by_cases h : g.inBounds p.1 p.2
    · simp [h]
    · simp only [h, Bool.false_eq_true, if_false]
      rw [(hp p).1]
      simp [h]
  · intro v hv
    by_cases h : g.inBounds p.1 p.2
    · rw [if_pos h] at hv
      obtain rfl := Option.some_injective _ hv.symm
      norm_num
    · rw [if_neg h] at hv
      exact (hp p).2 v hv

/-- Every cell collected by a `walkDir` sweep is stored at its own
coordinates. -/
theorem walkDir_mem {g : HexGrid} {d : ℤ × ℤ} :
    ∀ {n : ℕ} {q r : ℤ} {c : HexCell}, c ∈ (walkDir g d n q r).1 →
      g.getHex c.col c.row = some c := by
  intro n
  induction n with
  | zero => intro q r c h; cases h
  | succ m ih =>
    intro q r c h
    unfold walkDir at h
    rcases List.mem_append.mp h with h1 | h1
    · have h2 : g.getHex q r = some c := by
        cases hg : g.getHex q r with
        | none => rw [hg] at h1; cases h1
        | some c2 =>
          rw [hg] at h1
          simp only [Option.toList_some, List.mem_singleton] at h1
          rw [h1]
      obtain ⟨hcc, hcr, -⟩ := getHex_some h2
      rw [hcc, hcr]
      exact h2
    · exact ih h1

/-- Every cell collected by `_getHexesInRing` is stored at its own
coordinates (the walk only keeps `getHex` successes). -/
theorem getHexesInRing_mem {fs : FogSystem} {q r : ℤ} {k : ℕ} {c : HexCell}
    (h : c ∈ fs.getHexesInRing q r k) :
    fs.grid.getHex c.col c.row = some c := by
  unfold getHexesInRing at h
  suffices haux : ∀ (ds : List (ℤ × ℤ)) (st : List HexCell × ℤ × ℤ),
      (∀ x ∈ st.1, fs.grid.getHex x.col x.row = some x) →
      c ∈ (ds.foldl
        (fun (st : List HexCell × ℤ × ℤ) d =>
          let w := walkDir fs.grid d k st.2.1 st.2.2
          (st.1 ++ w.1, w.2)) st).1 →
      fs.grid.getHex c.col c.row = some c by
    exact haux DIRECTIONS ([], ((q - (k : ℤ)), (r + (k : ℤ))))
      (by intro x hx; cases hx) h
  intro ds
  induction ds with
  | nil =>
    intro st hst h2
    exact hst c h2
  | cons d rest ih =>
    intro st hst h2
    refine ih _ ?_ h2
    intro x hx
    rcases List.mem_append.mp hx with h3 | h3
    · exact hst x h3
    · exact walkDir_mem h3

/-- Folding `setVisibility` at a given level over a list of in-grid cells
preserves the invariant. -/
theorem goodFS_foldl_setVis {g : HexGrid} (lvl : ℚ) :
    ∀ (cells : List HexCell) (fs : FogSystem), GoodFS g fs →
      (∀ c ∈ cells, g.inBounds c.col c.row = true) →
      GoodFS g (cells.foldl
        (fun fs (hex : HexCell) => fs.setVisibility hex.col hex.row lvl) fs) := by
  intro cells
  induction cells with
  | nil =>
    intro fs hfs _
    exact hfs
  | cons c rest ih =>
    intro fs hfs hin
    refine ih _ ?_ ?_
    · exact goodFS_setVisibility hfs (hin c (List.mem_cons_self c rest)) lvl
    · intro x hx
      exact hin x (List.mem_cons_of_mem c hx)

/-- The ring sweep of `reveal`/`cover` preserves the invariant. -/
theorem goodFS_foldl_rings {g : HexGrid} (lvl : ℚ) (q r : ℤ) :
    ∀ (rings : List ℕ) (fs : FogSystem), GoodFS g fs →
      GoodFS g (rings.foldl
        (fun fs ring =>
          (fs.getHexesInRing q r ring).foldl
            (fun fs (hex : HexCell) => fs.setVisibility hex.col hex.row lvl) fs)
        fs) := by
  intro rings
  induction rings with
  | nil =>
    intro fs hfs
    exact hfs
  | cons k rest ih =>
    intro fs hfs
    refine ih _ ?_
    refine goodFS_foldl_setVis lvl _ fs hfs ?_
    intro c hc
    have hsome := getHexesInRing_mem hc
    have hin := (getHex_some hsome).2.2.2.2.2
    rwa [inBounds_congr hfs.1 hfs.2.1] at hin

/-- `reveal` preserves the invariant. -/
theorem goodFS_reveal {g : HexGrid} {fs : FogSystem} (hfs : GoodFS g fs)
    (q r : ℤ) (k : ℕ) : GoodFS g (fs.reveal q r k) := by
  unfold reveal
  cases hg : fs.grid.getHex q r with
  | none => exact hfs
  | some c =>
    have hqr : g.inBounds q r = true := by
      have hin := (getHex_some hg).2.2.2.2.2
      rwa [inBounds_congr hfs.1 hfs.2.1] at hin
    exact goodFS_foldl_rings 1 q r _ _ (goodFS_setVisibility hfs hqr 1)

/-- `cover` preserves the invariant. -/
theorem goodFS_cover {g : HexGrid} {fs : FogSystem} (hfs : GoodFS g fs)
    (q r : ℤ) (k : ℕ) : GoodFS g (fs.cover q r k) := by
  unfold cover
  cases hg : fs.grid.getHex q r with
  | none => exact hfs
  | some c =>
    have hqr : g.inBounds q r = true := by
      have hin := (getHex_some hg).2.2.2.2.2
      rwa [inBounds_congr hfs.1 hfs.2.1] at hin
    exact goodFS_foldl_rings 0 q r _ _ (goodFS_setVisibility hfs hqr 0)

/-- C7 counterexample: a single `setVisibility` call at the out-of-grid
coordinate (99, 99) adds a brand-new entry to the mapping, so "exactly one
entry per grid cell, never added to after construction" fails as stated. -/
theorem C7_counterexample :
    ((applyOps (mkFog G0) [FogOp.doSetVis 99 99 5]).vis (99, 99)).isSome = true ∧
    G0.inBounds 99 99 = false ∧
    ((mkFog G0).vis (99, 99)).isSome = false :=
  ⟨by decide, by decide, by decide⟩

/-- C7 amended: after construction and any sequence of reveal / cover /
setVisibility / coverAll / revealAll operations whose explicit
`setVisibility` targets are in-grid coordinates, the mapping has exactly one
entry per grid cell (none added or removed) and every stored disclosure
level lies in [0, 1]. -/
theorem C7_visibility_invariant
    (g : HexGrid) (ops : List FogOp)
    (hops : ∀ op ∈ ops, opInBounds g op) :
    ∀ p : ℤ × ℤ,
      (((applyOps (mkFog g) ops).vis p).isSome ↔ g.inBounds p.1 p.2 = true) ∧
      ∀ v, (applyOps (mkFog g) ops).vis p = some v → 0 ≤ v ∧ v ≤ 1 := by
  suffices haux : ∀ (ops : List FogOp) (fs : FogSystem), GoodFS g fs →
      (∀ op ∈ ops, opInBounds g op) → GoodFS g (applyOps fs ops) by
    exact (haux ops (mkFog g) (goodFS_mkFog g) hops).2.2
  intro ops2
  induction ops2 with
  | nil =>
    intro fs hfs _
    exact hfs
  | cons op rest ih =>
    intro fs hfs hops2
    refine ih _ ?_ ?_
    · have hop := hops2 op (List.mem_cons_self op rest)
      cases op with
      | doReveal q r radius => exact goodFS_reveal hfs q r radius
      | doCover q r radius => exact goodFS_cover hfs q r radius
      | doSetVis q r level => exact goodFS_setVisibility hfs hop level
      | doCoverAll => exact goodFS_coverAll hfs
      | doRevealAll => exact goodFS_revealAll hfs
    · intro x hx
      exact hops2 x (List.mem_cons_of_mem op hx)

/-- C7 witness: after covering all, revealing around (2,2), and an in-bounds
`setVisibility`, the out-of-grid coordinate (9,9) still has no entry while
the cell (0,0) still has one, and (0,0)'s stored level is in [0,1]. -/
theorem C7_witness :
    ¬((applyOps (mkFog G0)
        [FogOp.doCoverAll, FogOp.doReveal 2 2 1, FogOp.doSetVis 0 0 (1/2)]).vis
          (9, 9)).isSome = true := by
  have h := (C7_visibility_invariant G0
    [FogOp.doCoverAll, FogOp.doReveal 2 2 1, FogOp.doSetVis 0 0 (1/2)]
    (by intro op hop
        fin_cases hop <;> trivial) (9, 9)).1
  intro hcontra
  have := h.mp hcontra
  rw [show G0.inBounds 9 9 = false from by decide] at this
  cases this

/-- `setVisibility` never changes the grid dimensions. -/
theorem setVisibility_dims (fs : FogSystem) (q r : ℤ) (lvl : ℚ) :
    (fs.setVisibility q r lvl).grid.cols = fs.grid.cols ∧
    (fs.setVisibility q r lvl).grid.rows = fs.grid.rows := by
  unfold FogSystem.setVisibility
  cases fs.grid.getHex q r <;> exact ⟨rfl, rfl⟩

/-- Pointwise effect of `setVisibility` on `getVisibility`. -/
theorem getVisibility_setVisibility (fs : FogSystem) (q r a b : ℤ) (lvl : ℚ) :
    (fs.setVisibility q r lvl).getVisibility a b =
      if ((a, b) : ℤ × ℤ) = (q, r) then max 0 (min 1 lvl)
      else fs.getVisibility a b := by
  unfold FogSystem.setVisibility FogSystem.getVisibility
  by_cases h : ((a, b) : ℤ × ℤ) = (q, r) <;> simp [h]

/-- Under equal grid dimensions, a `walkDir` sweep keeps the same
coordinates and ends at the same position. -/
theorem walkDir_congr {g g2 : HexGrid} (hc : g2.cols = g.cols)
    (hr : g2.rows = g.rows) (d : ℤ × ℤ) :
    ∀ (n : ℕ) (q r : ℤ),
      (walkDir g2 d n q r).1.map (fun c => (c.col, c.row)) =
        (walkDir g d n q r).1.map (fun c => (c.col, c.row)) ∧
      (walkDir g2 d n q r).2 = (walkDir g d n q r).2 := by
  intro n
  induction n with
  | zero =>
    intro q r
    exact ⟨rfl, rfl⟩
  | succ m ih =>
    intro q r
    have hhead : ((g2.getHex q r).toList.map fun c => (c.col, c.row)) =
        ((g.getHex q r).toList.map fun c => (c.col, c.row)) := by
      unfold HexGrid.getHex
      rw [inBounds_congr hc hr]
      by_cases hb : g.inBounds q r <;> simp [hb]
    unfold FogSystem.walkDir
    simp only [List.map_append]
    exact ⟨by rw [hhead, (ih (q + d.1) (r + d.2)).1],
           (ih (q + d.1) (r + d.2)).2⟩

/-- Under equal grid dimensions, one ring keeps the same coordinates. -/
theorem ringCoords_congr {fs fs2 : FogSystem}
    (hc : fs2.grid.cols = fs.grid.cols) (hr : fs2.grid.rows = fs.grid.rows)
    (q r : ℤ) (k : ℕ) :
    ringCoords fs2 q r k = ringCoords fs q r k := by
  unfold ringCoords FogSystem.getHexesInRing
  suffices aux : ∀ (ds : List (ℤ × ℤ)) (st2 st : List HexCell × ℤ × ℤ),
      st2.1.map (fun c => (c.col, c.row)) = st.1.map (fun c => (c.col, c.row)) →
      st2.2 = st.2 →
      ((ds.foldl
        (fun (st : List HexCell × ℤ × ℤ) d =>
          let w := walkDir fs2.grid d k st.2.1 st.2.2
          (st.1 ++ w.1, w.2)) st2).1.map (fun c => (c.col, c.row)) =
       (ds.foldl
        (fun (st : List HexCell × ℤ × ℤ) d =>
          let w := walkDir fs.grid d k st.2.1 st.2.2
          (st.1 ++ w.1, w.2)) st).1.map (fun c => (c.col, c.row))) by
    exact aux DIRECTIONS _ _ rfl rfl
  intro ds
  induction ds with
  | nil =>
    intro st2 st h1 h2
    exact h1
  | cons d rest ih =>
    intro st2 st h1 h2
    refine ih _ _ ?_ ?_
    · simp only [List.map_append, h1, h2,
        (walkDir_congr hc hr d k st.2.1 st.2.2).1]
    · simp only [h2, (walkDir_congr hc hr d k st.2.1 st.2.2).2]

/-- Pointwise effect of sweeping `setVisibility lvl` over a cell list. -/
theorem getVisibility_foldl_setVis (lvl : ℚ) :
    ∀ (cells : List HexCell) (fs : FogSystem) (a b : ℤ),
      (cells.foldl
        (fun fs (hex : HexCell) => fs.setVisibility hex.col hex.row lvl)
        fs).getVisibility a b =
      if ((a, b) : ℤ × ℤ) ∈ cells.map (fun c => (c.col, c.row)) then
        max 0 (min 1 lvl)
      else fs.getVisibility a b := by
  intro cells
  induction cells with
  | nil =>
    intro fs a b
    simp
  | cons c rest ih =>
    intro fs a b
    simp only [List.foldl_cons, List.map_cons, List.mem_cons]
    rw [ih]
    by_cases hmem : ((a, b) : ℤ × ℤ) ∈ rest.map (fun c => (c.col, c.row))
    · simp [hmem]
    · simp only [hmem, or_false, if_neg hmem]
      rw [getVisibility_setVisibility]
      by_cases heq : ((a, b) : ℤ × ℤ) = (c.col, c.row) <;> simp [heq]

/-- Sweeping `setVisibility` preserves the grid dimensions. -/
theorem foldl_setVis_dims (lvl : ℚ) :
    ∀ (cells : List HexCell) (fs : FogSystem),
      ((cells.foldl
        (fun fs (hex : HexCell) => fs.setVisibility hex.col hex.row lvl)
        fs).grid.cols = fs.grid.cols) ∧
      ((cells.foldl
        (fun fs (hex : HexCell) => fs.setVisibility hex.col hex.row lvl)
        fs).grid.rows = fs.grid.rows) := by
  intro cells
  induction cells with
  | nil =>
    intro fs
    exact ⟨rfl, rfl⟩
  | cons c rest ih =>
    intro fs
    simp only [List.foldl_cons]
    refine ⟨?_, ?_⟩
    · rw [(ih _).1, (setVisibility_dims fs c.col c.row lvl).1]
    · rw [(ih _).2, (setVisibility_dims fs c.col c.row lvl).2]

/-- Pointwise effect of the ring sweeps of `reveal`/`cover`: a coordinate
kept by some processed ring reads the clamped written level, every other
coordinate its previous value. -/
theorem getVisibility_foldl_rings (lvl : ℚ) (q r : ℤ) :
    ∀ (rings : List ℕ) (fs0 fs : FogSystem),
      fs.grid.cols = fs0.grid.cols → fs.grid.rows = fs0.grid.rows →
      ∀ a b,
      ((rings.foldl
        (fun fs ring =>
          (fs.getHexesInRing q r ring).foldl
            (fun fs (hex : HexCell) => fs.setVisibility hex.col hex.row lvl)
            fs)
        fs).getVisibility a b) =
      if ((a, b) : ℤ × ℤ) ∈ rings.flatMap (ringCoords fs0 q r) then
        max 0 (min 1 lvl)
      else fs.getVisibility a b := by
  intro rings
  induction rings with
  | nil =>
    intro fs0 fs hc hr a b
    simp
  | cons k rest ih =>
    intro fs0 fs hc hr a b
    simp only [List.foldl_cons, List.flatMap_cons]
    have hdims := foldl_setVis_dims lvl (fs.getHexesInRing q r k) fs
    rw [ih fs0 _ (by rw [hdims.1, hc]) (by rw [hdims.2, hr])]
    rw [getVisibility_foldl_setVis]
    have hco : ((fs.getHexesInRing q r k).map fun c => (c.col, c.row)) =
        ringCoords fs0 q r k := ringCoords_congr hc hr q r k
    rw [hco]
    by_cases hrest : ((a, b) : ℤ × ℤ) ∈ rest.flatMap (ringCoords fs0 q r)
    · rw [if_pos hrest, if_pos (List.mem_append.mpr (Or.inr hrest))]
    · by_cases hk : ((a, b) : ℤ × ℤ) ∈ ringCoords fs0 q r k
      · rw [if_neg hrest, if_pos hk,
          if_pos (List.mem_append.mpr (Or.inl hk))]
      · rw [if_neg hrest, if_neg hk, if_neg ?_]
        intro hmem
        rcases List.mem_append.mp hmem with h | h
        · exact hk h
        · exact hrest h

/-- Pointwise effect of the whole sweep (center write followed by the ring
sweeps at the same level), shared by `reveal` and `cover`. -/
theorem sweep_getVisibility (fs : FogSystem) (q r : ℤ) (radius : ℕ)
    (lvl : ℚ) (a b : ℤ) :
    ((List.range' 1 radius).foldl
      (fun fs ring =>
        (fs.getHexesInRing q r ring).foldl
          (fun fs (hex : HexCell) => fs.setVisibility hex.col hex.row lvl) fs)
      (fs.setVisibility q r lvl)).getVisibility a b =
    if ((a, b) : ℤ × ℤ) ∈ sweepCoords fs q r radius then max 0 (min 1 lvl)
    else fs.getVisibility a b := by
  have hdims := setVisibility_dims fs q r lvl
  rw [getVisibility_foldl_rings lvl q r (List.range' 1 radius) fs
    (fs.setVisibility q r lvl) hdims.1 hdims.2 a b]
  rw [getVisibility_setVisibility]
  unfold sweepCoords
  by_cases hrest :
      ((a, b) : ℤ × ℤ) ∈ (List.range' 1 radius).flatMap (ringCoords fs q r)
  · rw [if_pos hrest, if_pos (List.mem_cons_of_mem _ hrest)]
  · rw [if_neg hrest]
    by_cases hcen : ((a, b) : ℤ × ℤ) = (q, r)
    · rw [if_pos hcen, if_pos (by rw [hcen]; exact List.mem_cons_self _ _)]
    · rw [if_neg hcen, if_neg ?_]
      intro hmem
      rcases List.mem_cons.mp hmem with h | h
      · exact hcen h
      · exact hrest h

/-- C6 counterexample: (1,1) is adjacent to (2,2) in the grid's own
neighbor relation (so it is at hex-ring distance 1), yet after covering all
and calling `reveal(2, 2, 1)` on the concrete 5×5 grid its disclosure level
is still 0, not 1 — and dually, `cover(2, 2, 1)` on the fully revealed grid
leaves it at 1, not 0: the ring walk applies fixed axial direction steps to
the offset coordinates, which does not enumerate the offset-adjacency ring
of an even-row center. -/
theorem C6_counterexample :
    adjacentCoords 2 2 1 1 ∧ G0.inBounds 1 1 = true ∧
    (((mkFog G0).coverAll).reveal 2 2 1).getVisibility 1 1 = 0 ∧
    (((mkFog G0).coverAll).reveal 2 2 1).isRevealed 1 1 = false ∧
    ((mkFog G0).cover 2 2 1).getVisibility 1 1 = 1 := by
  have h3 : (((mkFog G0).coverAll).reveal 2 2 1).getVisibility 1 1 = 0 := by
    decide
  refine ⟨by decide, by decide, h3, ?_, by decide⟩
  unfold FogSystem.isRevealed
  rw [h3]
  exact decide_eq_false (by norm_num)

/-- C6 amended: when the center cell exists, `reveal(q, r, radius)` and
`cover(q, r, radius)` run to completion (they are total functions; no error
path) and set disclosure to 1, respectively 0, exactly on `sweepCoords`:
the center plus every in-bounds cell visited by the fixed-direction ring
walk (start at `(q − k, r + k)`, `k` steps along each of the six
`DIRECTIONS`, for `k = 1..radius`); every other coordinate keeps its
previous level, and every written coordinate is in-grid. -/
theorem C6_reveal_cover_write_exactly_walked
    (fs : FogSystem) (q r : ℤ) (radius : ℕ) (c : HexCell)
    (hcenter : fs.grid.getHex q r = some c) :
    (∀ a b, (fs.reveal q r radius).getVisibility a b =
      if ((a, b) : ℤ × ℤ) ∈ sweepCoords fs q r radius then 1
      else fs.getVisibility a b) ∧
    (∀ a b, (fs.cover q r radius).getVisibility a b =
      if ((a, b) : ℤ × ℤ) ∈ sweepCoords fs q r radius then 0
      else fs.getVisibility a b) ∧
    (∀ p ∈ sweepCoords fs q r radius, fs.grid.inBounds p.1 p.2 = true) := by
  refine ⟨?_, ?_, ?_⟩
  · intro a b
    unfold FogSystem.reveal
    rw [hcenter]
    simp only
    rw [sweep_getVisibility]
    rw [show max 0 (min 1 (1 : ℚ)) = 1 from by norm_num]
  · intro a b
    unfold FogSystem.cover
    rw [hcenter]
    simp only
    rw [sweep_getVisibility]
    rw [show max 0 (min 1 (0 : ℚ)) = 0 from by norm_num]
  · intro p hp
    unfold sweepCoords at hp
    rcases List.mem_cons.mp hp with h | h
    · rw [h]
      exact (getHex_some hcenter).2.2.2.2.2
    · rcases List.mem_flatMap.mp h with ⟨k, hk, hpk⟩
      unfold ringCoords at hpk
      rcases List.mem_map.mp hpk with ⟨cell, hcell, hco⟩
      have hsome := getHexesInRing_mem hcell
      have hin := (getHex_some hsome).2.2.2.2.2
      rw [← hco]
      exact hin

/-- C6 witness (amended claim): on the concrete covered 5×5 grid,
`reveal(2, 2, 1)` sets the walked coordinate (3, 2) to disclosure 1, and on
the fully revealed grid `cover(2, 2, 1)` sets it to 0. -/
theorem C6_witness :
    (((mkFog G0).coverAll).reveal 2 2 1).getVisibility 3 2 = 1 ∧
    ((mkFog G0).cover 2 2 1).getVisibility 3 2 = 0 := by
  constructor
  · have h := (C6_reveal_cover_write_exactly_walked ((mkFog G0).coverAll)
      2 2 1 ⟨2, 2, 0, false, false, false, false⟩ (by decide)).1 3 2
    rw [h, if_pos (by decide)]
  · have h := (C6_reveal_cover_write_exactly_walked (mkFog G0)
      2 2 1 ⟨2, 2, 0, false, true, false, false⟩ (by decide)).2.1 3 2
    rw [h, if_pos (by decide)]

/-- `_updateTrail` only touches the trail and history buffers. -/
theorem updateTrail_isInRuin (env : UpdateEnv) (b : Ball) :
    (Ball.updateTrail env b).isInRuin = b.isInRuin := rfl

/-- `_updateTrail` does not move the ball. -/
theorem updateTrail_x (env : UpdateEnv) (b : Ball) :
    (Ball.updateTrail env b).x = b.x := rfl

/-- `_updateTrail` does not move the ball. -/
theorem updateTrail_y (env : UpdateEnv) (b : Ball) :
    (Ball.updateTrail env b).y = b.y := rfl

/-- `_updateTrail` does not change velocity. -/
theorem updateTrail_vx (env : UpdateEnv) (b : Ball) :
    (Ball.updateTrail env b).vx = b.vx := rfl

/-- `_updateTrail` does not change velocity. -/
theorem updateTrail_vy (env : UpdateEnv) (b : Ball) :
    (Ball.updateTrail env b).vy = b.vy := rfl

/-- `_updateTrail` does not touch the discrete-move bookkeeping. -/
theorem updateTrail_targetX (env : UpdateEnv) (b : Ball) :
    (Ball.updateTrail env b).targetX = b.targetX := rfl

/-- `_updateTrail` does not touch the discrete-move bookkeeping. -/
theorem updateTrail_targetY (env : UpdateEnv) (b : Ball) :
    (Ball.updateTrail env b).targetY = b.targetY := rfl

/-- `_updateTrail` does not touch the discrete-move bookkeeping. -/
theorem updateTrail_mode (env : UpdateEnv) (b : Ball) :
    (Ball.updateTrail env b).isDiscreteMode = b.isDiscreteMode := rfl

/-- `_updateTrail` does not touch the discrete-move bookkeeping. -/
theorem updateTrail_moveDuration (env : UpdateEnv) (b : Ball) :
    (Ball.updateTrail env b).moveDuration = b.moveDuration := rfl

/-- `_updateTrail` does not touch the discrete-move bookkeeping. -/
theorem updateTrail_moveStartTime (env : UpdateEnv) (b : Ball) :
    (Ball.updateTrail env b).moveStartTime = b.moveStartTime := rfl

/-- `_updateMetrics` only touches the derived metrics. -/
theorem updateMetrics_isInRuin (env : UpdateEnv) (b : Ball) :
    (Ball.updateMetrics env b).isInRuin = b.isInRuin := by
  unfold Ball.updateMetrics
  split <;> rfl

/-- `_updateMetrics` does not move the ball. -/
theorem updateMetrics_x (env : UpdateEnv) (b : Ball) :
    (Ball.updateMetrics env b).x = b.x := by
  unfold Ball.updateMetrics
  split <;> rfl

/-- `_updateMetrics` does not move the ball. -/
theorem updateMetrics_y (env : UpdateEnv) (b : Ball) :
    (Ball.updateMetrics env b).y = b.y := by
  unfold Ball.updateMetrics
  split <;> rfl

/-- `_updateMetrics` does not change velocity. -/
theorem updateMetrics_vx (env : UpdateEnv) (b : Ball) :
    (Ball.updateMetrics env b).vx = b.vx := by
  unfold Ball.updateMetrics
  split <;> rfl

/-- `_updateMetrics` does not change velocity. -/
theorem updateMetrics_vy (env : UpdateEnv) (b : Ball) :
    (Ball.updateMetrics env b).vy = b.vy := by
  unfold Ball.updateMetrics
  split <;> rfl

/-- `_updateMetrics` does not touch the discrete-move bookkeeping. -/
theorem updateMetrics_targetX (env : UpdateEnv) (b : Ball) :
    (Ball.updateMetrics env b).targetX = b.targetX := by
  unfold Ball.updateMetrics
  split <;> rfl

/-- `_updateMetrics` does not touch the discrete-move bookkeeping. -/
theorem updateMetrics_targetY (env : UpdateEnv) (b : Ball) :
    (Ball.updateMetrics env b).targetY = b.targetY := by
  unfold Ball.updateMetrics
  split <;> rfl

/-- `_updateMetrics` does not touch the discrete-move bookkeeping. -/
theorem updateMetrics_mode (env : UpdateEnv) (b : Ball) :
    (Ball.updateMetrics env b).isDiscreteMode = b.isDiscreteMode := by
  unfold Ball.updateMetrics
  split <;> rfl

/-- `_updateMetrics` does not touch the discrete-move bookkeeping. -/
theorem updateMetrics_moveDuration (env : UpdateEnv) (b : Ball) :
    (Ball.updateMetrics env b).moveDuration = b.moveDuration := by
  unfold Ball.updateMetrics
  split <;> rfl

/-- `_updateMetrics` does not touch the discrete-move bookkeeping. -/
theorem updateMetrics_moveStartTime (env : UpdateEnv) (b : Ball) :
    (Ball.updateMetrics env b).moveStartTime = b.moveStartTime := by
  unfold Ball.updateMetrics
  split <;> rfl

/-- `_applyNoise` never sets the terminal flag. -/
theorem applyNoise_isInRuin (env : UpdateEnv) (b : Ball) :
    (Ball.applyNoise env b).isInRuin = b.isInRuin := by
  unfold Ball.applyNoise
  split <;> rfl

/-- `_applyNoise` does not touch the discrete-move target. -/
theorem applyNoise_targetX (env : UpdateEnv) (b : Ball) :
    (Ball.applyNoise env b).targetX = b.targetX := by
  unfold Ball.applyNoise
  split <;> rfl

/-- The off-grid recentering never sets the terminal flag. -/
theorem applyCenteringOutside_isInRuin (env : UpdateEnv) (b : Ball) :
    (Ball.applyCenteringOutside env b).isInRuin = b.isInRuin := by
  unfold Ball.applyCenteringOutside
  dsimp only
  split <;> rfl

/-- The off-grid recentering does not touch the discrete-move target. -/
theorem applyCenteringOutside_targetX (env : UpdateEnv) (b : Ball) :
    (Ball.applyCenteringOutside env b).targetX = b.targetX := by
  unfold Ball.applyCenteringOutside
  dsimp only
  split <;> rfl

/-- A continuous-mode update step whose looked-up cell is absent or
non-terminal never sets `isInRuin` and never touches the discrete-move
target marker. -/
theorem update_continuous_preserves
    (env : UpdateEnv) (b : Ball) (dt : ℚ)
    (h : b.isInRuin = false) (hd : b.isDiscreteMode = false)
    (hcells : ∀ cell, b.grid.getHexAtPixel b.x b.y = some cell →
      cell.isRuin = false) :
    (Ball.update env b dt).isInRuin = false ∧
    (Ball.update env b dt).targetX = b.targetX := by
  unfold Ball.update
  rw [if_neg (by rw [h]; exact Bool.false_ne_true),
    if_neg (by rw [hd]; exact Bool.false_ne_true)]
  cases hcell : b.grid.getHexAtPixel b.x b.y with
  | none =>
    simp only [updateMetrics_isInRuin, updateTrail_isInRuin,
      updateMetrics_targetX, updateTrail_targetX, apply_ite Ball.isInRuin,
      apply_ite Ball.targetX, applyNoise_isInRuin, applyNoise_targetX,
      applyCenteringOutside_isInRuin, applyCenteringOutside_targetX,
      ite_self]
    exact ⟨h, trivial⟩
  | some cell =>
    have hruin : cell.isRuin = false := hcells cell hcell
    simp only [hruin, Bool.false_eq_true, if_false,
      updateMetrics_isInRuin, updateTrail_isInRuin,
      updateMetrics_targetX, updateTrail_targetX, apply_ite Ball.isInRuin,
      apply_ite Ball.targetX, applyNoise_isInRuin, applyNoise_targetX,
      ite_self]
    exact ⟨h, trivial⟩

/-- C2: once `isInRuin` holds, `update` is the identity on the whole state
(the terminal state is absorbing, with no transitions out); in continuous
mode the `free → terminal` transition fires on an update step exactly when
the cell under the current position is flagged terminal — such a step sets
`isInRuin` and changes nothing else, and a step whose looked-up cell is
absent or non-terminal never sets `isInRuin`. -/
theorem C2_terminal_state_absorbing
    (env : UpdateEnv) (b : Ball) (dt : ℚ) :
    (b.isInRuin = true → Ball.update env b dt = b) ∧
    (b.isInRuin = false → b.isDiscreteMode = false →
      ∀ cell, b.grid.getHexAtPixel b.x b.y = some cell → cell.isRuin = true →
        Ball.update env b dt = { b with isInRuin := true }) ∧
    (b.isInRuin = false → b.isDiscreteMode = false →
      (∀ cell, b.grid.getHexAtPixel b.x b.y = some cell →
        cell.isRuin = false) →
      (Ball.update env b dt).isInRuin = false) := by
  refine ⟨?_, ?_, ?_⟩
  · intro h
    unfold Ball.update
    rw [if_pos h]
  · intro h hd cell hcell hruin
    unfold Ball.update
    rw [if_neg (by rw [h]; exact Bool.false_ne_true),
      if_neg (by rw [hd]; exact Bool.false_ne_true)]
    simp only [hcell, hruin, if_true]
  · intro h hd hcells
    exact (update_continuous_preserves env b dt h hd hcells).1

/-- C2 witness: a Marker at the center of the terminal 1×1 grid enters the
terminal state on the next update, and a further update is the identity. -/
theorem C2_witness :
    Ball.update (mkEnvW 0) BW (1667/100) = { BW with isInRuin := true } ∧
    Ball.update (mkEnvW 0) { BW with isInRuin := true } (1667/100)
      = { BW with isInRuin := true } := by
  have hcell : BW.grid.getHexAtPixel BW.x BW.y
      = some ⟨0, 0, 0, true, true, false, false⟩ := by
    show GW.getHexAtPixel 1 2 = _
    norm_num [HexGrid.getHexAtPixel, HexGrid.pixelToHex, jround, isOddRow,
      scanOffsets, HexGrid.scanStep, HexGrid.getHex, HexGrid.inBounds,
      HexGrid.hexToPixel, HexGrid.getHexPosition, sqDist, HexGrid.xSpacing,
      HexGrid.ySpacing, HexGrid.hexRectangleHeight, GW,
      show Int.tmod 1 2 = 1 from by decide,
      show Int.tmod 0 2 = 0 from by decide]
  exact ⟨(C2_terminal_state_absorbing (mkEnvW 0) BW (1667/100)).2.1 rfl rfl
      _ hcell rfl,
    (C2_terminal_state_absorbing (mkEnvW 0) { BW with isInRuin := true }
      (1667/100)).1 rfl⟩

/-- `_updateDiscrete` preserves the discrete-move invariant. -/
theorem moveInv_updateDiscrete (env : UpdateEnv) {X Y t0 : ℚ} {b : Ball}
    (h : MoveInv X Y t0 b) : MoveInv X Y t0 (Ball.updateDiscrete env b) := by
  obtain ⟨hmode, hruin, hdur, hstart, hcase⟩ := h
  unfold Ball.updateDiscrete
  rcases hcase with ⟨htx, hty⟩ | ⟨htx, hty, hx, hy, hvx, hvy⟩
  · rw [htx, hty]
    dsimp only
    split
    · exact ⟨hmode, hruin, hdur, hstart,
        Or.inr ⟨rfl, rfl, rfl, rfl, rfl, rfl⟩⟩
    · exact ⟨hmode, hruin, hdur, hstart, Or.inl ⟨rfl, rfl⟩⟩
  · rw [htx, hty]
    exact ⟨hmode, hruin, hdur, hstart,
      Or.inr ⟨htx, hty, hx, hy, hvx, hvy⟩⟩

/-- `_updateTrail` preserves the discrete-move invariant. -/
theorem moveInv_updateTrail (env : UpdateEnv) {X Y t0 : ℚ} {b : Ball}
    (h : MoveInv X Y t0 b) : MoveInv X Y t0 (Ball.updateTrail env b) := by
  obtain ⟨h1, h2, h3, h4, h5⟩ := h
  refine ⟨by rw [updateTrail_mode]; exact h1,
    by rw [updateTrail_isInRuin]; exact h2,
    by rw [updateTrail_moveDuration]; exact h3,
    by rw [updateTrail_moveStartTime]; exact h4, ?_⟩
  rcases h5 with ⟨ha, hc⟩ | ⟨ha, hc, hd, he, hf, hg⟩
  · exact Or.inl ⟨by rw [updateTrail_targetX]; exact ha,
      by rw [updateTrail_targetY]; exact hc⟩
  · exact Or.inr ⟨by rw [updateTrail_targetX]; exact ha,
      by rw [updateTrail_targetY]; exact hc,
      by rw [updateTrail_x]; exact hd, by rw [updateTrail_y]; exact he,
      by rw [updateTrail_vx]; exact hf, by rw [updateTrail_vy]; exact hg⟩

/-- `_updateMetrics` preserves the discrete-move invariant. -/
theorem moveInv_updateMetrics (env : UpdateEnv) {X Y t0 : ℚ} {b : Ball}
    (h : MoveInv X Y t0 b) : MoveInv X Y t0 (Ball.updateMetrics env b) := by
  obtain ⟨h1, h2, h3, h4, h5⟩ := h
  refine ⟨by rw [updateMetrics_mode]; exact h1,
    by rw [updateMetrics_isInRuin]; exact h2,
    by rw [updateMetrics_moveDuration]; exact h3,
    by rw [updateMetrics_moveStartTime]; exact h4, ?_⟩
  rcases h5 with ⟨ha, hc⟩ | ⟨ha, hc, hd, he, hf, hg⟩
  · exact Or.inl ⟨by rw [updateMetrics_targetX]; exact ha,
      by rw [updateMetrics_targetY]; exact hc⟩
  · exact Or.inr ⟨by rw [updateMetrics_targetX]; exact ha,
      by rw [updateMetrics_targetY]; exact hc,
      by rw [updateMetrics_x]; exact hd, by rw [updateMetrics_y]; exact he,
      by rw [updateMetrics_vx]; exact hf, by rw [updateMetrics_vy]; exact hg⟩

/-- A full `update` call preserves the discrete-move invariant. -/
theorem moveInv_update (env : UpdateEnv) {X Y t0 : ℚ} {b : Ball}
    (h : MoveInv X Y t0 b) : MoveInv X Y t0 (Ball.update env b) := by
  have hmode := h.1
  have hruin := h.2.1
  unfold Ball.update
  rw [if_neg (by rw [hruin]; exact Bool.false_ne_true), if_pos hmode]
  exact moveInv_updateMetrics env (moveInv_updateTrail env
    (moveInv_updateDiscrete env h))

/-- An `update` whose clock has advanced at least 300 ms past the move start
completes the move: position lands exactly on the target, velocity zeroes,
and the target marker clears. -/
theorem moveInv_complete (env : UpdateEnv) {X Y t0 : ℚ} {b : Ball}
    (h : MoveInv X Y t0 b) (hnow : t0 + 300 ≤ env.now) :
    (Ball.update env b).x = X ∧ (Ball.update env b).y = Y ∧
    (Ball.update env b).vx = 0 ∧ (Ball.update env b).vy = 0 ∧
    (Ball.update env b).targetX = none := by
  obtain ⟨hmode, hruin, hdur, hstart, hcase⟩ := h
  unfold Ball.update
  rw [if_neg (by rw [hruin]; exact Bool.false_ne_true), if_pos hmode]
  rw [updateMetrics_x, updateTrail_x, updateMetrics_y, updateTrail_y,
    updateMetrics_vx, updateTrail_vx, updateMetrics_vy, updateTrail_vy,
    updateMetrics_targetX, updateTrail_targetX]
  unfold Ball.updateDiscrete
  rcases hcase with ⟨htx, hty⟩ | ⟨htx, hty, hx, hy, hvx, hvy⟩
  · rw [htx, hty]
    dsimp only
    rw [hdur, hstart]
    have hone : (1 : ℚ) ≤ (env.now - t0) / 300 := by
      rw [le_div_iff₀ (by norm_num)]
      linarith
    rw [min_eq_left hone, if_pos (le_refl (1 : ℚ))]
    exact ⟨rfl, rfl, rfl, rfl, rfl⟩
  · rw [htx, hty]
    exact ⟨hx, hy, hvx, hvy, htx⟩

/-- C8 counterexample: after `moveTo` on a Marker that is not in discrete
mode (the constructor default; `moveTo` itself never sets
`isDiscreteMode`), an update at `moveStartTime + 300` runs the continuous
branch, so the move never completes and `isMovingDiscrete()` is still true
afterwards — the claim fails for such a Marker. -/
theorem C8_counterexample :
    (Ball.moveTo BW2 0 0 1000 300).isDiscreteMode = false ∧
    (Ball.moveTo BW2 0 0 1000 300).moveStartTime + 300 ≤ (mkEnvW 1300).now ∧
    (Ball.update (mkEnvW 1300)
      (Ball.moveTo BW2 0 0 1000 300)).isMovingDiscrete = true := by
  have hcell : BW2.grid.getHexAtPixel BW2.x BW2.y
      = some ⟨0, 0, 0, false, true, false, false⟩ := by
    show GW2.getHexAtPixel 1 2 = _
    norm_num [HexGrid.getHexAtPixel, HexGrid.pixelToHex, jround, isOddRow,
      scanOffsets, HexGrid.scanStep, HexGrid.getHex, HexGrid.inBounds,
      HexGrid.hexToPixel, HexGrid.getHexPosition, sqDist, HexGrid.xSpacing,
      HexGrid.ySpacing, HexGrid.hexRectangleHeight, GW2, GW,
      show Int.tmod 1 2 = 1 from by decide,
      show Int.tmod 0 2 = 0 from by decide]
  refine ⟨rfl, by show (1000 : ℚ) + 300 ≤ 1300; norm_num, ?_⟩
  have hpres := (update_continuous_preserves (mkEnvW 1300)
    (Ball.moveTo BW2 0 0 1000 300) (1667/100) rfl rfl ?_).2
  · unfold Ball.isMovingDiscrete
    rw [hpres]
    rfl
  · intro cell hc
    rw [show (Ball.moveTo BW2 0 0 1000 300).grid.getHexAtPixel
        (Ball.moveTo BW2 0 0 1000 300).x (Ball.moveTo BW2 0 0 1000 300).y
        = BW2.grid.getHexAtPixel BW2.x BW2.y from rfl, hcell] at hc
    obtain rfl := (Option.some_injective _ hc).symm
    rfl

/-- C8 amended: for a Marker already in discrete mode and not terminal,
`moveTo(target, 300)` followed by any updates, the last of which reads a
clock at least 300 ms past the move start, leaves the position exactly at
the target cell's pixel center, zeroes both velocity components, and makes
`isMovingDiscrete()` false. -/
theorem C8_discrete_move_completes
    (b : Ball) (col row : ℤ) (t0 : ℚ) (envs : List UpdateEnv)
    (env : UpdateEnv) (hmode : b.isDiscreteMode = true)
    (hruin : b.isInRuin = false) (hnow : t0 + 300 ≤ env.now) :
    (Ball.update env (envs.foldl (fun bb e => Ball.update e bb)
        (Ball.moveTo b col row t0 300))).x = (b.grid.hexToPixel col row).1 ∧
    (Ball.update env (envs.foldl (fun bb e => Ball.update e bb)
        (Ball.moveTo b col row t0 300))).y = (b.grid.hexToPixel col row).2 ∧
    (Ball.update env (envs.foldl (fun bb e => Ball.update e bb)
        (Ball.moveTo b col row t0 300))).vx = 0 ∧
    (Ball.update env (envs.foldl (fun bb e => Ball.update e bb)
        (Ball.moveTo b col row t0 300))).vy = 0 ∧
    (Ball.update env (envs.foldl (fun bb e => Ball.update e bb)
        (Ball.moveTo b col row t0 300))).isMovingDiscrete = false := by
  have hinv0 : MoveInv (b.grid.hexToPixel col row).1
      (b.grid.hexToPixel col row).2 t0 (Ball.moveTo b col row t0 300) :=
    ⟨hmode, hruin, rfl, rfl, Or.inl ⟨rfl, rfl⟩⟩
  have hfold : ∀ (l : List UpdateEnv) (bb : Ball),
      MoveInv (b.grid.hexToPixel col row).1 (b.grid.hexToPixel col row).2 t0
        bb →
      MoveInv (b.grid.hexToPixel col row).1 (b.grid.hexToPixel col row).2 t0
        (l.foldl (fun bb e => Ball.update e bb) bb) := by
    intro l
    induction l with
    | nil =>
      intro bb hbb
      exact hbb
    | cons e rest ih =>
      intro bb hbb
      exact ih _ (moveInv_update e hbb)
  obtain ⟨hx, hy, hvx, hvy, htx⟩ :=
    moveInv_complete env (hfold envs _ hinv0) hnow
  refine ⟨hx, hy, hvx, hvy, ?_⟩
  unfold Ball.isMovingDiscrete
  rw [htx]
  rfl

/-- C8 witness (amended claim): on the ruin-free 1×1 grid, a discrete-mode
Marker moved to cell (0,0) at time 1000 and updated at times 1150 and 1300
sits exactly at the cell center with zero velocity and no pending move. -/
theorem C8_witness :
    (Ball.update (mkEnvW 1300)
      ([mkEnvW 1150].foldl (fun bb e => Ball.update e bb)
        (Ball.moveTo { BW2 with isDiscreteMode := true } 0 0 1000 300))).x
      = (({ BW2 with isDiscreteMode := true } : Ball).grid.hexToPixel 0 0).1 ∧
    (Ball.update (mkEnvW 1300)
      ([mkEnvW 1150].foldl (fun bb e => Ball.update e bb)
        (Ball.moveTo { BW2 with isDiscreteMode := true } 0 0 1000 300))).vx
      = 0 ∧
    (Ball.update (mkEnvW 1300)
      ([mkEnvW 1150].foldl (fun bb e => Ball.update e bb)
        (Ball.moveTo { BW2 with isDiscreteMode := true } 0 0 1000
          300))).isMovingDiscrete = false := by
  have h := C8_discrete_move_completes { BW2 with isDiscreteMode := true }
    0 0 1000 [mkEnvW 1150] (mkEnvW 1300) rfl rfl
    (by show (1000 : ℚ) + 300 ≤ 1300; norm_num)
  exact ⟨h.1, h.2.2.1, h.2.2.2.2⟩

/-- Squared distances are nonnegative. -/
theorem sqDist_nonneg (x1 y1 x2 y2 : ℚ) : 0 ≤ sqDist x1 y1 x2 y2 :=
  add_nonneg (mul_self_nonneg _) (mul_self_nonneg _)

/-- A squared distance vanishes only between equal points. -/
theorem sqDist_eq_zero {x1 y1 x2 y2 : ℚ} (h : sqDist x1 y1 x2 y2 = 0) :
    x1 = x2 ∧ y1 = y2 := by
  unfold sqDist at h
  have h1 : (x1 - x2) * (x1 - x2) = 0 ∧ (y1 - y2) * (y1 - y2) = 0 := by
    constructor <;>
      nlinarith [mul_self_nonneg (x1 - x2), mul_self_nonneg (y1 - y2)]
  constructor
  · have := mul_self_eq_zero.mp h1.1
    linarith
  · have := mul_self_eq_zero.mp h1.2
    linarith

/-- Distinct cells have distinct pixel centers (positive spacing). -/
theorem hexToPixel_inj (g : HexGrid) (hsh : 0 < g.sideLength + g.hexHeight)
    (hR : 0 < g.hexRadius) {c1 r1 c2 r2 : ℤ}
    (h : g.hexToPixel c1 r1 = g.hexToPixel c2 r2) : c1 = c2 ∧ r1 = r2 := by
  unfold hexToPixel getHexPosition ySpacing xSpacing hexRectangleHeight at h
  have hx := congrArg Prod.fst h
  have hy := congrArg Prod.snd h
  simp only at hx hy
  have hr : r1 = r2 := by
    have h2 : (r1 : ℚ) * (g.sideLength + g.hexHeight) =
        (r2 : ℚ) * (g.sideLength + g.hexHeight) := by linarith
    have h3 : (r1 : ℚ) = r2 :=
      mul_right_cancel₀ (by linarith) h2
    exact_mod_cast h3
  subst hr
  refine ⟨?_, rfl⟩
  have h2 : (c1 : ℚ) * (2 * g.hexRadius) = (c2 : ℚ) * (2 * g.hexRadius) := by
    linarith
  have h3 : (c1 : ℚ) = c2 := mul_right_cancel₀ (by linarith) h2
  exact_mod_cast h3

/-- Once the closest-hex scan has found an exact (distance-0) match, the
remaining iterations keep it. -/
theorem scanFold_zero (g : HexGrid) (px py : ℚ) (colC rowC : ℤ) :
    ∀ (L : List (ℤ × ℤ)) (best : ℤ × ℤ),
      L.foldl (scanStep g px py colC rowC) (best, some 0) = (best, some 0) := by
  intro L
  induction L with
  | nil =>
    intro best
    rfl
  | cons d rest ih =>
    intro best
    rw [List.foldl_cons]
    have hstep : scanStep g px py colC rowC (best, some 0) d = (best, some 0) := by
      unfold scanStep
      dsimp only
      cases hg : g.getHex (colC + d.2) (rowC + d.1) with
      | none => rfl
      | some cell =>
        simp only
        rw [if_neg]
        intro hlt
        exact absurd hlt (not_lt.mpr (sqDist_nonneg _ _ _ _))
    rw [hstep]
    exact ih best

/-- While every existing candidate keeps a positive distance, the scan's
running best distance stays absent-or-positive. -/
theorem scanFold_pos (g : HexGrid) (px py : ℚ) (colC rowC : ℤ) :
    ∀ (L : List (ℤ × ℤ)) (st : (ℤ × ℤ) × Option ℚ),
      (st.2 = none ∨ ∃ q, st.2 = some q ∧ 0 < q) →
      (∀ d ∈ L, ∀ cell, g.getHex (colC + d.2) (rowC + d.1) = some cell →
        0 < sqDist (px + g.padding) (py + g.padding)
          (g.hexToPixel (colC + d.2) (rowC + d.1)).1
          (g.hexToPixel (colC + d.2) (rowC + d.1)).2) →
      ((L.foldl (scanStep g px py colC rowC) st).2 = none ∨
        ∃ q, (L.foldl (scanStep g px py colC rowC) st).2 = some q ∧ 0 < q) := by
  intro L
  induction L with
  | nil =>
    intro st hst _
    exact hst
  | cons d rest ih =>
    intro st hst hL
    rw [List.foldl_cons]
    refine ih _ ?_ ?_
    · unfold scanStep
      dsimp only
      cases hg : g.getHex (colC + d.2) (rowC + d.1) with
      | none => exact hst
      | some cell =>
        simp only
        have hpos := hL d (List.mem_cons_self d rest) cell hg
        rcases hst with hnone | ⟨q, hq, hqpos⟩
        · rw [hnone]
          exact Or.inr ⟨_, rfl, hpos⟩
        · rw [hq]
          dsimp only
          by_cases hlt : sqDist (px + g.padding) (py + g.padding)
              (g.hexToPixel (colC + d.2) (rowC + d.1)).1
              (g.hexToPixel (colC + d.2) (rowC + d.1)).2 < q
          · rw [if_pos hlt]
            exact Or.inr ⟨_, rfl, hpos⟩
          · rw [if_neg hlt]
            exact Or.inr ⟨q, hq, hqpos⟩
    · intro d2 hd2
      exact hL d2 (List.mem_cons_of_mem d hd2)

/-- At a cell's own center the approximate row of `pixelToHex` is the row
below the true one: the vertical offset ratio lies in [1/2, 1). -/
theorem jround_row (g : HexGrid) (hs : 0 < g.sideLength)
    (hh : 0 < g.hexHeight) (row : ℤ) :
    jround (((row : ℚ) * g.ySpacing + g.hexRectangleHeight / 2) / g.ySpacing)
      = row + 1 := by
  unfold jround ySpacing hexRectangleHeight
  have hsh : (0 : ℚ) < g.sideLength + g.hexHeight := by linarith
  have hρ : ((row : ℚ) * (g.sideLength + g.hexHeight) +
      (g.sideLength + 2 * g.hexHeight) / 2) / (g.sideLength + g.hexHeight)
      = row + (g.sideLength + 2 * g.hexHeight) /
          (2 * (g.sideLength + g.hexHeight)) := by
    field_simp
    ring
  rw [hρ]
  have h1 : 1/2 ≤ (g.sideLength + 2 * g.hexHeight) /
      (2 * (g.sideLength + g.hexHeight)) := by
    rw [le_div_iff₀ (by linarith)]
    linarith
  have h2 : (g.sideLength + 2 * g.hexHeight) /
      (2 * (g.sideLength + g.hexHeight)) < 1 := by
    rw [div_lt_one (by linarith)]
    linarith
  rw [Int.floor_eq_iff]
  constructor
  · push_cast
    linarith
  · push_cast
    linarith

/-- Rounding an exact multiple of the positive spacing recovers the
factor. -/
theorem jround_int_mul_div (col : ℤ) (w : ℚ) (hw : 0 < w) :
    jround ((col : ℚ) * w / w) = col := by
  rw [mul_div_assoc, div_self (ne_of_gt hw), mul_one]
  unfold jround
  rw [Int.floor_eq_iff]
  refine ⟨by linarith, by linarith⟩

/-- One scan step whose candidate is the queried point's own cell replaces
any absent-or-positive best distance with that cell at distance 0. -/
theorem scanStep_target (g : HexGrid) (px py : ℚ) (colC rowC col row : ℤ)
    (hin : g.inBounds col row = true)
    (hdist0 : sqDist (px + g.padding) (py + g.padding)
      (g.hexToPixel col row).1 (g.hexToPixel col row).2 = 0)
    (st : (ℤ × ℤ) × Option ℚ)
    (hst : st.2 = none ∨ ∃ q, st.2 = some q ∧ 0 < q)
    (d0 : ℤ × ℤ) (hd0c : colC + d0.2 = col) (hd0r : rowC + d0.1 = row) :
    scanStep g px py colC rowC st d0 = ((col, row), some 0) := by
  unfold scanStep
  dsimp only
  rw [hd0c, hd0r]
  have hsome : g.getHex col row
      = some ⟨col, row, g.elevation (col, row), g.isRuin (col, row),
          g.isRevealed (col, row), g.isHighlighted (col, row),
          g.isLegalMove (col, row)⟩ := by
    unfold getHex
    rw [if_pos hin]
  rw [hsome]
  dsimp only
  rcases hst with hnone | ⟨q, hq, hqpos⟩
  · rw [hnone]
    dsimp only
    rw [hdist0]
  · rw [hq]
    dsimp only
    rw [hdist0, if_pos hqpos]

/-- If the 3×3 scan's offset list contains an offset landing exactly on the
queried point's own cell, and every offset before it lands elsewhere, the
scan returns that cell's coordinates. -/
theorem scan_hits_target (g : HexGrid)
    (hsh : 0 < g.sideLength + g.hexHeight) (hR : 0 < g.hexRadius)
    (col row colC rowC : ℤ) (hin : g.inBounds col row = true)
    (px py : ℚ)
    (hpx : px + g.padding = (g.hexToPixel col row).1)
    (hpy : py + g.padding = (g.hexToPixel col row).2)
    (L1 L2 : List (ℤ × ℤ)) (d0 : ℤ × ℤ)
    (hsplit : scanOffsets = L1 ++ d0 :: L2)
    (hd0c : colC + d0.2 = col) (hd0r : rowC + d0.1 = row)
    (hL1 : ∀ d ∈ L1, (colC + d.2, rowC + d.1) ≠ ((col, row) : ℤ × ℤ)) :
    (scanOffsets.foldl (scanStep g px py colC rowC) ((colC, rowC), none)).1
      = (col, row) := by
  have hdistpos : ∀ d ∈ L1, ∀ cell,
      g.getHex (colC + d.2) (rowC + d.1) = some cell →
      0 < sqDist (px + g.padding) (py + g.padding)
        (g.hexToPixel (colC + d.2) (rowC + d.1)).1
        (g.hexToPixel (colC + d.2) (rowC + d.1)).2 := by
    intro d hd cell hcell
    rcases lt_or_eq_of_le (sqDist_nonneg (px + g.padding) (py + g.padding)
      (g.hexToPixel (colC + d.2) (rowC + d.1)).1
      (g.hexToPixel (colC + d.2) (rowC + d.1)).2) with hlt | heq
    · exact hlt
    · exfalso
      obtain ⟨hx0, hy0⟩ := sqDist_eq_zero heq.symm
      rw [hpx] at hx0
      rw [hpy] at hy0
      have hcenters : g.hexToPixel col row
          = g.hexToPixel (colC + d.2) (rowC + d.1) :=
        Prod.ext hx0 hy0
      obtain ⟨hc, hr⟩ := hexToPixel_inj g hsh hR hcenters
      exact hL1 d hd (by rw [← hc, ← hr])
  have hdist0 : sqDist (px + g.padding) (py + g.padding)
      (g.hexToPixel col row).1 (g.hexToPixel col row).2 = 0 := by
    rw [hpx, hpy]
    unfold sqDist
    ring
  rw [hsplit, List.foldl_append, List.foldl_cons]
  rw [scanStep_target g px py colC rowC col row hin hdist0 _
    (scanFold_pos g px py colC rowC L1 ((colC, rowC), none)
      (Or.inl rfl) hdistpos) d0 hd0c hd0r]
  rw [scanFold_zero]

/-- C3: for every in-bounds cell of any grid with positive geometry
parameters, converting the cell to its pixel center and back round-trips:
`pixelToHex` recovers exactly (col, row), hence `getHexAtPixel` at
`hexToPixel(col, row)` returns exactly the stored cell at (col, row). -/
theorem C3_toPixel_cellAt_roundtrip
    (g : HexGrid) (hs : 0 < g.sideLength) (hh : 0 < g.hexHeight)
    (hR : 0 < g.hexRadius) (col row : ℤ) (hin : g.inBounds col row = true) :
    g.pixelToHex (g.hexToPixel col row).1 (g.hexToPixel col row).2
      = (col, row) ∧
    g.getHexAtPixel (g.hexToPixel col row).1 (g.hexToPixel col row).2
      = g.getHex col row := by
  have hrow0 : 0 ≤ row := (inBounds_iff.mp hin).2.2.1
  have hsh : (0 : ℚ) < g.sideLength + g.hexHeight := by linarith
  have hxw : (0 : ℚ) < g.xSpacing := by
    unfold xSpacing
    linarith
  have hpy : (g.hexToPixel col row).2 - g.padding
      = (row : ℚ) * g.ySpacing + g.hexRectangleHeight / 2 := by
    simp only [hexToPixel, getHexPosition]
    ring
  have hrowC : jround (((g.hexToPixel col row).2 - g.padding) / g.ySpacing)
      = row + 1 := by
    rw [hpy]
    exact jround_row g hs hh row
  have hpx : (g.hexToPixel col row).1 - g.padding
      = (col : ℚ) * g.xSpacing + ((row.tmod 2 : ℤ) : ℚ) * g.hexRadius +
          g.hexRadius := by
    simp only [hexToPixel, getHexPosition]
    ring
  have hpxP : ((g.hexToPixel col row).1 - g.padding) + g.padding
      = (g.hexToPixel col row).1 := by ring
  have hpyP : ((g.hexToPixel col row).2 - g.padding) + g.padding
      = (g.hexToPixel col row).2 := by ring
  have main : g.pixelToHex (g.hexToPixel col row).1 (g.hexToPixel col row).2
      = (col, row) := by
    unfold pixelToHex
    dsimp only
    rw [hrowC]
    rcases Int.emod_two_eq_zero_or_one row with hpar | hpar
    · have hoddc : isOddRow (row + 1) = true :=
        isOddRow_true (by omega) (by omega)
      rw [if_pos hoddc]
      have htmod : row.tmod 2 = 0 := by
        rw [Int.tmod_eq_emod hrow0 (by norm_num)]
        exact hpar
      have hcolC : jround ((((g.hexToPixel col row).1 - g.padding) -
          g.hexRadius) / g.xSpacing) = col := by
        rw [hpx, htmod]
        rw [show (col : ℚ) * g.xSpacing + ((0 : ℤ) : ℚ) * g.hexRadius +
            g.hexRadius - g.hexRadius = (col : ℚ) * g.xSpacing from by
          push_cast
          ring]
        exact jround_int_mul_div col g.xSpacing hxw
      rw [hcolC]
      refine scan_hits_target g hsh hR col row col (row + 1) hin
        ((g.hexToPixel col row).1 - g.padding)
        ((g.hexToPixel col row).2 - g.padding) hpxP hpyP
        [(-1, -1)]
        [(-1, 1), (0, -1), (0, 0), (0, 1), (1, -1), (1, 0), (1, 1)]
        ((-1, 0) : ℤ × ℤ) (by decide) (by omega) (by omega) ?_
      intro d hd
      have hd1 : d = ((-1, -1) : ℤ × ℤ) := by
        cases hd with
        | head => rfl
        | tail _ h => cases h
      rw [hd1]
      intro hcontra
      rw [Prod.mk.injEq] at hcontra
      omega
    · have hoddc : isOddRow (row + 1) = false :=
        isOddRow_false (by omega) (by omega)
      rw [if_neg (by rw [hoddc]; exact Bool.false_ne_true)]
      have htmod : row.tmod 2 = 1 := by
        rw [Int.tmod_eq_emod hrow0 (by norm_num)]
        exact hpar
      have hcolC : jround (((g.hexToPixel col row).1 - g.padding) /
          g.xSpacing) = col + 1 := by
        rw [hpx, htmod]
        rw [show (col : ℚ) * g.xSpacing + ((1 : ℤ) : ℚ) * g.hexRadius +
            g.hexRadius = ((col + 1 : ℤ) : ℚ) * g.xSpacing from by
          unfold xSpacing
          push_cast
          ring]
        exact jround_int_mul_div (col + 1) g.xSpacing hxw
      rw [hcolC]
      refine scan_hits_target g hsh hR col row (col + 1) (row + 1) hin
        ((g.hexToPixel col row).1 - g.padding)
        ((g.hexToPixel col row).2 - g.padding) hpxP hpyP
        []
        [(-1, 0), (-1, 1), (0, -1), (0, 0), (0, 1), (1, -1), (1, 0), (1, 1)]
        ((-1, -1) : ℤ × ℤ) (by decide) (by omega) (by omega) ?_
      intro d hd
      cases hd
  refine ⟨main, ?_⟩
  unfold getHexAtPixel
  dsimp only
  rw [main]

/-- C3 witness: on the concrete 5×5 grid, looking up the pixel center of
cell (1, 2) returns exactly the cell (1, 2); same for (2, 1). -/
theorem C3_witness :
    G0.getHexAtPixel (G0.hexToPixel 1 2).1 (G0.hexToPixel 1 2).2
      = G0.getHex 1 2 ∧
    G0.getHexAtPixel (G0.hexToPixel 2 1).1 (G0.hexToPixel 2 1).2
      = G0.getHex 2 1 :=
  ⟨(C3_toPixel_cellAt_roundtrip G0 (by norm_num [G0, mkGrid])
      (by norm_num [G0, mkGrid]) (by norm_num [G0, mkGrid]) 1 2
      (by decide)).2,
   (C3_toPixel_cellAt_roundtrip G0 (by norm_num [G0, mkGrid])
      (by norm_num [G0, mkGrid]) (by norm_num [G0, mkGrid]) 2 1
      (by decide)).2⟩

/-- C10: coordinates with no stored entry in the visibility map — including
out-of-grid coordinates — read back as fully revealed: `getVisibility`
returns 1 and `isRevealed` returns true. -/
theorem C10_absent_visibility_defaults_revealed
    (fs : FogSystem) (q r : ℤ) (h : fs.vis (q, r) = none) :
    fs.getVisibility q r = 1 ∧ fs.isRevealed q r = true := by
  unfold FogSystem.isRevealed FogSystem.getVisibility
  rw [h]
  norm_num

/-- C10 witness: on the fresh fog system over the 5×5 grid, the out-of-grid
coordinate (9, 9) has no entry, reads visibility 1, and counts revealed. -/
theorem C10_witness :
    (mkFog G0).getVisibility 9 9 = 1 ∧ (mkFog G0).isRevealed 9 9 = true :=
  C10_absent_visibility_defaults_revealed (mkFog G0) 9 9 (by decide)

end Hexi
